import Mathlib

/-!
# Verification of the legal-motion analysis pipeline

Shallow embedding of the analysis pipeline of `app/services/motion_analyzer.py`
(classes and helpers of `MotionAnalyzer`) together with the data model of
`app/models/schemas.py`, and proofs of the specified properties.

The embedding covers:
* the deterministic citation extractor `_extract_legal_citations` (including a
  faithful backtracking matcher for the three `re` patterns it uses, with
  `re.IGNORECASE` semantics),
* the response normalizer `_ensure_comprehensive_structure` over untyped JSON
  values, with Python raising semantics made explicit in `Except`,
* the post-processor `_post_process_comprehensive_analysis` and
  `_check_for_missed_arguments`,
* the prompt builder `_get_system_prompt`,
* name-level facts about the import list of the analyzer module versus the
  names defined by the schemas module.
-/

/-! ## String utilities (Python `in`, `.lower()`, `.strip()`) -/

/-- `listStartsWith h n` is true when `n` is a prefix of `h`
(Python `h.startswith(n)`). -/
def listStartsWith : List Char → List Char → Bool
  | _, [] => true
  | [], _ :: _ => false
  | a :: as, b :: bs => a = b && listStartsWith as bs

/-- `listContainsSub h n` is true when `n` occurs as a contiguous substring of
`h` (Python `n in h` for strings). -/
def listContainsSub : List Char → List Char → Bool
  | [], n => listStartsWith [] n
  | a :: t, n => listStartsWith (a :: t) n || listContainsSub t n

/-- Python substring test `n in h`. -/
def strContains (h n : String) : Bool :=
  listContainsSub h.data n.data

/-- Python `str.isspace` characters relevant to `str.strip()` (ASCII). -/
def pyWhitespace (c : Char) : Bool :=
  c = ' ' || c = '\t' || c = '\n' || c = '\r' || c = '\x0b' || c = '\x0c'

/-- Python `str.strip()` on a character list. -/
def stripList (xs : List Char) : List Char :=
  ((xs.dropWhile pyWhitespace).reverse.dropWhile pyWhitespace).reverse

/-- Python `str.strip()`. -/
def pyStrip (s : String) : String :=
  String.mk (stripList s.data)

/-- Python `str.lower()` (ASCII case folding, as in all strings this program
handles). -/
def pyLower (s : String) : String :=
  String.mk (s.data.map Char.toLower)

theorem listStartsWith_iff (n h : List Char) :
    listStartsWith h n = true ↔ n <+: h := by
  induction h generalizing n with
  | nil =>
    cases n <;> simp [listStartsWith]
  | cons a t ih =>
    cases n with
    | nil => simp [listStartsWith]
    | cons b bs =>
      simp only [listStartsWith, Bool.and_eq_true, decide_eq_true_eq, ih,
        List.cons_prefix_cons]
      constructor
      · rintro ⟨h1, h2⟩; exact ⟨h1.symm, h2⟩
      · rintro ⟨h1, h2⟩; exact ⟨h1.symm, h2⟩

theorem listContainsSub_iff (h n : List Char) :
    listContainsSub h n = true ↔ n <:+: h := by
  induction h with
  | nil =>
    simp [listContainsSub, listStartsWith_iff, List.infix_nil, List.prefix_nil]
  | cons a t ih =>
    simp [listContainsSub, listStartsWith_iff, ih, List.infix_cons_iff]

theorem strContains_of_sub {h n : String} (hin : n.data <:+: h.data) :
    strContains h n = true :=
  (listContainsSub_iff _ _).mpr hin

theorem sub_of_strContains {h n : String} (hc : strContains h n = true) :
    n.data <:+: h.data :=
  (listContainsSub_iff _ _).mp hc

/-! ## Untyped JSON values with Python semantics

`json.loads` produces nested dicts/lists/strings/numbers/booleans/None.
Dict keys are arbitrary (hashable) Python values; insertion order is
preserved, so a dict is modelled as an association list. -/

/-- Python error kinds raised by the operations the analyzer performs. -/
inductive PyErr where
  | typeError
  | attributeError
  | valueError
  | indexError
  | keyError
deriving DecidableEq, Repr

/-- A Python dict key.  Keys must be hashable, so lists and dicts never occur
as keys; attempting to use one raises `TypeError`. -/
inductive JKey where
  | knull
  | kbool (b : Bool)
  | knum (q : ℚ)
  | kstr (s : String)
deriving DecidableEq, Repr

/-- A parsed-but-untyped JSON / Python value.  Dicts preserve insertion order
and are modelled as association lists keyed by `JKey`. -/
inductive JVal where
  | jnull
  | jbool (b : Bool)
  | jnum (q : ℚ)
  | jstr (s : String)
  | jarr (xs : List JVal)
  | jobj (kvs : List (JKey × JVal))

/-- The Python value a dict key denotes (used when iterating a dict or taking
`list(d.keys())`). -/
def JKey.toVal : JKey → JVal
  | .knull => .jnull
  | .kbool b => .jbool b
  | .knum q => .jnum q
  | .kstr s => .jstr s

/-- Conversion of a Python value to a dict key; unhashable values (lists and
dicts) raise `TypeError`. -/
def JVal.toKey : JVal → Except PyErr JKey
  | .jnull => .ok .knull
  | .jbool b => .ok (.kbool b)
  | .jnum q => .ok (.knum q)
  | .jstr s => .ok (.kstr s)
  | .jarr _ => .error .typeError
  | .jobj _ => .error .typeError

/-- A Python dict. -/
abbrev JDict := List (JKey × JVal)

/-- First value stored under `k` (Python `d[k]` / `d.get(k)`). -/
def jLookup : JDict → JKey → Option JVal
  | [], _ => none
  | (k', v) :: rest, k => if k' = k then some v else jLookup rest k

/-- Python `d[k] = v`: replaces the value in place when the key is present
(keeping its position), otherwise appends the binding at the end. -/
def jSet : JDict → JKey → JVal → JDict
  | [], k, v => [(k, v)]
  | (k', v') :: rest, k, v =>
    if k' = k then (k, v) :: rest else (k', v') :: jSet rest k v

/-- Python `k in d`. -/
def jHasKey (d : JDict) (k : JKey) : Bool :=
  (jLookup d k).isSome

/-- Python `d.get(k, dflt)`. -/
def jGetD (d : JDict) (k : JKey) (dflt : JVal) : JVal :=
  (jLookup d k).getD dflt

theorem jLookup_jSet_self (d : JDict) (k : JKey) (v : JVal) :
    jLookup (jSet d k v) k = some v := by
  induction d with
  | nil => simp [jSet, jLookup]
  | cons kv rest ih =>
    obtain ⟨k', v'⟩ := kv
    by_cases h : k' = k
    · simp [jSet, h, jLookup]
    · simp [jSet, h, jLookup, ih]

theorem jLookup_jSet_ne (d : JDict) (k k' : JKey) (v : JVal) (h : k' ≠ k) :
    jLookup (jSet d k v) k' = jLookup d k' := by
  have hk' : k ≠ k' := Ne.symm h
  induction d with
  | nil => simp [jSet, jLookup, hk']
  | cons kv rest ih =>
    obtain ⟨k'', v''⟩ := kv
    by_cases hk : k'' = k
    · subst hk
      simp [jSet, jLookup, hk']
    · simp only [jSet, if_neg hk, jLookup]
      by_cases hkk : k'' = k'
      · simp [hkk]
      · simp [hkk, ih]

theorem jSet_self (d : JDict) (k : JKey) (v : JVal)
    (h : jLookup d k = some v) : jSet d k v = d := by
  induction d with
  | nil => simp [jLookup] at h
  | cons kv rest ih =>
    obtain ⟨k', v'⟩ := kv
    by_cases hk : k' = k
    · subst hk
      simp [jLookup] at h
      simp [jSet, h]
    · simp only [jLookup, if_neg hk] at h
      simp [jSet, hk, ih h]

/-! ## Python container primitives used by `_ensure_comprehensive_structure` -/

/-- Python `for x in v` (as used by `enumerate(data['all_arguments'])` and
`for arg in data['all_arguments']`): lists yield their elements, strings yield
their characters as one-character strings, dicts yield their keys; numbers,
booleans and `None` raise `TypeError`. -/
def pyIterate : JVal → Except PyErr (List JVal)
  | .jarr xs => .ok xs
  | .jstr s => .ok (s.data.map fun c => .jstr (String.mk [c]))
  | .jobj kvs => .ok (kvs.map fun kv => kv.1.toVal)
  | _ => .error .typeError

/-- Python `key not in arg` where `key` is a string: dicts test key membership,
strings test substring containment, lists test element equality; numbers,
booleans and `None` raise `TypeError` (argument of non-iterable type). -/
def pyStrNotIn (key : String) : JVal → Except PyErr Bool
  | .jobj kvs => .ok (!jHasKey kvs (.kstr key))
  | .jstr s => .ok (!strContains s key)
  | .jarr xs =>
    .ok (!xs.any fun e => match e with | .jstr s => s = key | _ => false)
  | _ => .error .typeError

/-- Python `arg[key] = v` where `key` is a string: only dicts support string
item assignment; anything else raises `TypeError`. -/
def pySetItem (arg : JVal) (key : String) (v : JVal) : Except PyErr JVal :=
  match arg with
  | .jobj kvs => .ok (.jobj (jSet kvs (.kstr key) v))
  | _ => .error .typeError

/-- Python `arg.get(key, dflt)`: only dicts have `.get`; anything else raises
`AttributeError`. -/
def pyGetDefault (arg : JVal) (key : String) (dflt : JVal) :
    Except PyErr JVal :=
  match arg with
  | .jobj kvs => .ok ((jLookup kvs (.kstr key)).getD dflt)
  | _ => .error .attributeError

/-- Python `len(v)`: lists, strings and dicts are sized; numbers, booleans and
`None` raise `TypeError`. -/
def pyLen : JVal → Except PyErr Nat
  | .jarr xs => .ok xs.length
  | .jstr s => .ok s.length
  | .jobj kvs => .ok kvs.length
  | _ => .error .typeError

/-- Python `list(v.keys())`: only dicts have `.keys`; anything else raises
`AttributeError`. -/
def pyKeys : JVal → Except PyErr (List JVal)
  | .jobj kvs => .ok (kvs.map fun kv => kv.1.toVal)
  | _ => .error .attributeError

/-! ## The Response Normalizer: `_ensure_comprehensive_structure`

The Python function mutates `data` in five textual steps; the embedding
threads the dict through one function per step, with every operation that can
raise returning `Except PyErr`.  Keys used by the function: -/

def kAllArguments : JKey := .kstr "all_arguments"
def kArgsByCategory : JKey := .kstr "arguments_by_category"
def kTotalFound : JKey := .kstr "total_arguments_found"
def kCategoriesUsed : JKey := .kstr "categories_used"
def kConfidence : JKey := .kstr "confidence_in_analysis"

/-- Python `f"arg_{n:03d}"` for a non-negative `n`: the decimal digits of `n`
zero-padded on the left to width 3. -/
def argIdFormat (n : Nat) : String :=
  "arg_" ++ (if n < 10 then "00" else if n < 100 then "0" else "") ++ toString n

/-- One `if key not in arg: arg[key] = dflt` statement of the per-argument
loop. -/
def defStep (key : String) (dflt : JVal) (arg : JVal) : Except PyErr JVal := do
  let absent ← pyStrNotIn key arg
  if absent then pySetItem arg key dflt else pure arg

/-- The body of `for i, arg in enumerate(data['all_arguments'])`: backfill
`argument_id`, `confidence_score`, `priority_level`, `subcategories`,
`weaknesses` and `cited_statutes` when absent. -/
def normArg (i : Nat) (arg : JVal) : Except PyErr JVal := do
  let arg ← defStep "argument_id" (.jstr (argIdFormat (i + 1))) arg
  let arg ← defStep "confidence_score" (.jnum 0.8) arg
  let arg ← defStep "priority_level" (.jnum 3) arg
  let arg ← defStep "subcategories" (.jarr []) arg
  let arg ← defStep "weaknesses" (.jarr []) arg
  let arg ← defStep "cited_statutes" (.jarr []) arg
  pure arg

/-- `enumerate` plus a monadic map (the per-argument loop). -/
def mapWithIdx (f : Nat → JVal → Except PyErr JVal) :
    Nat → List JVal → Except PyErr (List JVal)
  | _, [] => .ok []
  | i, x :: xs => do
    let y ← f i x
    let ys ← mapWithIdx f (i + 1) xs
    pure (y :: ys)

/-- Step 1: `if 'all_arguments' in data:` — ensure every argument entry has
proper IDs and default fields.  For a list the (in-place) element updates are
written back; iterating a string or a dict yields fresh strings, so nothing is
written back in those cases. -/
def stage1 (d : JDict) : Except PyErr JDict :=
  match jLookup d kAllArguments with
  | none => .ok d
  | some v => do
    let entries ← pyIterate v
    let entries' ← mapWithIdx normArg 0 entries
    pure (match v with
      | .jarr _ => jSet d kAllArguments (.jarr entries')
      | _ => d)

/-- Loop body of the `arguments_by_category` build: look up the argument's
category (default `'other'`), create the bucket on demand and append. -/
def groupStep (g : JDict) (arg : JVal) : Except PyErr JDict := do
  let cat ← pyGetDefault arg "category" (.jstr "other")
  let catKey ← cat.toKey
  let g := if jHasKey g catKey then g else jSet g catKey (.jarr [])
  match jLookup g catKey with
  | some (.jarr xs) => pure (jSet g catKey (.jarr (xs ++ [arg])))
  | some _ => .error .attributeError
  | none => .error .keyError

/-- Step 2: `if 'arguments_by_category' not in data and 'all_arguments' in
data:` — derive the category-indexed grouping. -/
def stage2 (d : JDict) : Except PyErr JDict :=
  match jLookup d kArgsByCategory with
  | some _ => .ok d
  | none =>
    match jLookup d kAllArguments with
    | none => .ok d
    | some v => do
      let entries ← pyIterate v
      let g ← entries.foldlM groupStep []
      pure (jSet d kArgsByCategory (.jobj g))

/-- Step 3: `data['total_arguments_found'] =
len(data.get('all_arguments', []))`. -/
def stage3 (d : JDict) : Except PyErr JDict := do
  let n ← pyLen (jGetD d kAllArguments (.jarr []))
  pure (jSet d kTotalFound (.jnum n))

/-- Step 4: `if 'categories_used' not in data:` — derive it from the grouping
keys. -/
def stage4 (d : JDict) : Except PyErr JDict :=
  match jLookup d kCategoriesUsed with
  | some _ => .ok d
  | none => do
    let ks ← pyKeys (jGetD d kArgsByCategory (.jobj []))
    pure (jSet d kCategoriesUsed (.jarr ks))

/-- Step 5: default `confidence_in_analysis`. -/
def stage5 (d : JDict) : JDict :=
  match jLookup d kConfidence with
  | some _ => d
  | none => jSet d kConfidence (.jnum 0.85)

/-- `_ensure_comprehensive_structure`: the Response Normalizer.  `data` is the
parsed JSON dict; any Python exception is surfaced as `Except.error`. -/
def ensureComprehensiveStructure (d : JDict) : Except PyErr JDict := do
  let d ← stage1 d
  let d ← stage2 d
  let d ← stage3 d
  let d ← stage4 d
  pure (stage5 d)

/-! ## A backtracking regular-expression matcher

`_extract_legal_citations` and `_check_for_missed_arguments` rely on Python
`re` with `re.IGNORECASE`.  The constructs their patterns use — character
classes, case-insensitive literals, concatenation, ordered alternation,
greedy `*`/`+`/`?`, lazy `*?`, fixed repetition and numbered capture groups —
are interpreted below by a continuation-passing backtracking matcher that
tries possibilities in exactly Python's preference order (greedy prefers the
longer match, lazy the shorter, alternation the left branch). -/

/-- Regular-expression abstract syntax. -/
inductive RE where
  | eps
  | cls (p : Char → Bool)
  | seq (a b : RE)
  | alt (a b : RE)
  | star (a : RE)
  | starLazy (a : RE)
  | group (n : Nat) (a : RE)

/-- Captured character spans, keyed by group number; the most recent capture
of a group is first (`match.group(n)` returns the last capture). -/
abbrev Caps := List (Nat × List Char)

/-- `mrun fuel r s k caps` matches `r` against a prefix of `s` and calls the
continuation `k` on the remaining input, backtracking (in Python preference
order) until `k` succeeds.  On success the result is the pair produced by the
continuation: total consumed length paired with the captures.  `fuel` bounds
the recursion depth along any one search path (every recursive call consumes
one unit); `matchAt` supplies fuel far above the deepest possible path for
the patterns above, so the matcher never gives up early. -/
def mrun : Nat → RE → List Char → (List Char → Caps → Option (Nat × Caps)) →
    Caps → Option (Nat × Caps)
  | 0, _, _, _, _ => none
  | _ + 1, .eps, s, k, caps => k s caps
  | _ + 1, .cls p, s, k, caps =>
    match s with
    | [] => none
    | c :: rest => if p c then k rest caps else none
  | f + 1, .seq a b, s, k, caps =>
    mrun f a s (fun rest caps' => mrun f b rest k caps') caps
  | f + 1, .alt a b, s, k, caps =>
    (mrun f a s k caps) <|> (mrun f b s k caps)
  | f + 1, .star a, s, k, caps =>
    (mrun f a s (fun rest caps' =>
      if rest.length < s.length then mrun f (.star a) rest k caps'
      else k rest caps') caps) <|> k s caps
  | f + 1, .starLazy a, s, k, caps =>
    (k s caps) <|> (mrun f a s (fun rest caps' =>
      if rest.length < s.length then mrun f (.starLazy a) rest k caps'
      else none) caps)
  | f + 1, .group n a, s, k, caps =>
    mrun f a s
      (fun rest caps' => k rest ((n, s.take (s.length - rest.length)) :: caps'))
      caps

/-- Try to match `r` at the start of `s`, returning the consumed length and
the captures of the first match in backtracking order (what Python's engine
returns). -/
def matchAt (r : RE) (s : List Char) : Option (Nat × Caps) :=
  mrun ((s.length + 2) * 400) r s
    (fun rest caps => some (s.length - rest.length, caps)) []

/-- One match record of `re.finditer`. -/
structure RMatch where
  start : Nat
  matched : List Char
  caps : Caps

/-- The scanning loop of `re.finditer`: attempt an anchored match at every
position from left to right; on success emit the match and continue after it
(advancing at least one position). -/
def scanAux (r : RE) (s : List Char) : Nat → Nat → List RMatch
  | 0, _ => []
  | rem + 1, pos =>
    if pos < s.length + 1 then
      match matchAt r (s.drop pos) with
      | some (consumed, caps) =>
        { start := pos, matched := (s.drop pos).take consumed, caps := caps } ::
          scanAux r s rem (pos + max consumed 1)
      | none => scanAux r s rem (pos + 1)
    else []

/-- `re.finditer(r, s)` as a list of match records. -/
def findAll (r : RE) (s : List Char) : List RMatch :=
  scanAux r s (s.length + 1) 0

/-- `re.search(r, s)` as a boolean (`bool(re.search(...))`). -/
def pySearch (r : RE) (s : String) : Bool :=
  !(findAll r s.data).isEmpty

/-! ## The Citation Extractor: `_extract_legal_citations`

The three `re` patterns, compiled with `re.IGNORECASE`.  With that flag a
literal letter matches either case and the classes `[A-Z]`/`[a-z]` match any
ASCII letter.  `\w` is `[a-zA-Z0-9_]`, `\s` is ASCII whitespace and `\d` is
`[0-9]` on the ASCII texts this service processes. -/

/-- `\w`. -/
def wordCh : RE := .cls fun c => c.isAlphanum || c = '_'

/-- `\s`. -/
def spaceCh : RE := .cls pyWhitespace

/-- `\d`. -/
def digitCh : RE := .cls Char.isDigit

/-- A literal character under `re.IGNORECASE`. -/
def listr1 (c : Char) : RE := .cls fun d => d.toLower = c.toLower

/-- A literal string under `re.IGNORECASE`. -/
def litCI (cs : String) : RE :=
  cs.data.foldr (fun c r => .seq (listr1 c) r) .eps

/-- `r+` (greedy). -/
def rplus (r : RE) : RE := .seq r (.star r)

/-- `r?` (greedy). -/
def ropt (r : RE) : RE := .alt r .eps

/-- Concatenation of a pattern list. -/
def rcat (rs : List RE) : RE := rs.foldr .seq .eps

/-- `(\w+(?:\s+\w+)*)` without its surrounding group: one word, then any
number of whitespace-separated words. -/
def partyName : RE := .seq (rplus wordCh) (.star (.seq (rplus spaceCh) (rplus wordCh)))

/-- `(?:\s*\(([^)]+)\s*(\d{4})\))?` — the optional parenthesised court/year
tail; court is group 6, year group 7. -/
def parenTail : RE :=
  ropt (rcat [.star spaceCh, listr1 '(',
    .group 6 (rplus (.cls fun c => c ≠ ')')),
    .star spaceCh,
    .group 7 (rcat [digitCh, digitCh, digitCh, digitCh]),
    listr1 ')'])

/-- `F\.\d?d|F\.\s?Supp\.?\s?\d?d?|U\.S\.` — the federal reporter
alternatives of the first pattern. -/
def fedReporter : RE :=
  .alt (rcat [litCI "F.", ropt digitCh, listr1 'd'])
    (.alt (rcat [litCI "F.", ropt spaceCh, litCI "Supp", ropt (listr1 '.'),
      ropt spaceCh, ropt digitCh, ropt (listr1 'd')])
      (litCI "U.S."))

/-- Pattern 1 of `citation_patterns` (federal cases):
`(\w+(?:\s+\w+)*)\s*v\.\s*(\w+(?:\s+\w+)*),?\s*(\d+)\s+(F\.\d?d|F\.\s?Supp\.?\s?\d?d?|U\.S\.)\s+(\d+)(?:\s*\(([^)]+)\s*(\d{4})\))?`. -/
def patFederal : RE :=
  rcat [.group 1 partyName, .star spaceCh, litCI "v.", .star spaceCh,
    .group 2 partyName, ropt (listr1 ','), .star spaceCh,
    .group 3 (rplus digitCh), rplus spaceCh, .group 4 fedReporter,
    rplus spaceCh, .group 5 (rplus digitCh), parenTail]

/-- `([A-Z][^,\d]*?)` of the second pattern (group 4): a letter followed by a
lazy run of characters that are neither commas nor digits. -/
def stateReporter : RE :=
  .seq (.cls Char.isAlpha) (.starLazy (.cls fun c => !(c = ',' || c.isDigit)))

/-- Pattern 2 of `citation_patterns` (state cases):
`(\w+(?:\s+\w+)*)\s*v\.\s*(\w+(?:\s+\w+)*),?\s*(\d+)\s+([A-Z][^,\d]*?)\s+(\d+)(?:\s*\(([^)]+)\s*(\d{4})\))?`. -/
def patState : RE :=
  rcat [.group 1 partyName, .star spaceCh, litCI "v.", .star spaceCh,
    .group 2 partyName, ropt (listr1 ','), .star spaceCh,
    .group 3 (rplus digitCh), rplus spaceCh, .group 4 stateReporter,
    rplus spaceCh, .group 5 (rplus digitCh), parenTail]

/-- `[A-Z][a-z]+\.\s*(?:Civ\.|Crim\.|Evid\.|R\.)\s*(?:Proc\.|Code)?` — the
state-code alternative inside group 2 of the statutory pattern. -/
def stateCode : RE :=
  rcat [.cls Char.isAlpha, rplus (.cls Char.isAlpha), listr1 '.',
    .star spaceCh,
    .alt (litCI "Civ.") (.alt (litCI "Crim.") (.alt (litCI "Evid.") (litCI "R."))),
    .star spaceCh, ropt (.alt (litCI "Proc.") (litCI "Code"))]

/-- `(\d+(?:\.\d+)*(?:\([a-zA-Z0-9]+\))*)` — the section number of the
statutory pattern (group 3). -/
def sectionNum : RE :=
  rcat [rplus digitCh, .star (.seq (listr1 '.') (rplus digitCh)),
    .star (rcat [listr1 '(', rplus (.cls Char.isAlphanum), listr1 ')'])]

/-- Pattern 3 of `citation_patterns` (statutory citations):
`(\d+)\s+(U\.S\.C\.|C\.F\.R\.|[A-Z][a-z]+\.\s*(?:Civ\.|Crim\.|Evid\.|R\.)\s*(?:Proc\.|Code)?)\s*§+\s*(\d+(?:\.\d+)*(?:\([a-zA-Z0-9]+\))*)`. -/
def patStatute : RE :=
  rcat [.group 1 (rplus digitCh), rplus spaceCh,
    .group 2 (.alt (litCI "U.S.C.") (.alt (litCI "C.F.R.") stateCode)),
    .star spaceCh, rplus (listr1 '§'), .star spaceCh,
    .group 3 sectionNum]

/-- A citation record appended to the `citations` list: the dicts built in
the case and statute branches of `_extract_legal_citations`. -/
inductive Citation where
  | case (full_citation case_name volume reporter page court : String)
      (year : Int)
  | statute (full_citation title code sectionNo : String)
deriving DecidableEq, Repr

/-- `match.group(n)` for a pattern with `ng` groups: `IndexError` when the
group number exceeds the group count, `None` (here `Option.none`) when the
group did not participate in the match. -/
def matchGroup (ng : Nat) (m : RMatch) (n : Nat) :
    Except PyErr (Option String) :=
  if n > ng then .error .indexError
  else .ok ((m.caps.lookup n).map String.mk)

/-- `.strip()` on a possibly-`None` group (`None.strip()` raises
`AttributeError`). -/
def groupStrip (g : Option String) : Except PyErr String :=
  match g with
  | some s => .ok (pyStrip s)
  | none => .error .attributeError

/-- A non-`None` group used directly (attribute access on `None` raises
`AttributeError`; in the statute branch the groups used are mandatory in
every pattern, so this never fires). -/
def groupMandatory (g : Option String) : Except PyErr String :=
  match g with
  | some s => .ok s
  | none => .error .attributeError

/-- `int(match.group(7))` — the year digits; group 7 is `\d{4}`. -/
def parseYearDigits (s : String) : Int :=
  Int.ofNat (s.data.foldl (fun acc c => acc * 10 + (c.toNat - '0'.toNat)) 0)

/-- The body of the extraction loop: build one citation record from a match,
choosing the statute branch when the whole match contains `U.S.C.`, `C.F.R.`
or `Code`. -/
def buildCitation (ng : Nat) (m : RMatch) : Except PyErr Citation := do
  let g0 := String.mk m.matched
  if strContains g0 "U.S.C." || strContains g0 "C.F.R." || strContains g0 "Code" then
    let title ← groupMandatory (← matchGroup ng m 1)
    let code ← groupMandatory (← matchGroup ng m 2)
    let sectionNo ← groupMandatory (← matchGroup ng m 3)
    pure (.statute (pyStrip g0) title code sectionNo)
  else
    let p1 ← groupStrip (← matchGroup ng m 1)
    let p2 ← groupStrip (← matchGroup ng m 2)
    let caseName := p1 ++ " v. " ++ p2
    let volume ← groupMandatory (← matchGroup ng m 3)
    let reporter ← groupStrip (← matchGroup ng m 4)
    let page ← groupMandatory (← matchGroup ng m 5)
    let court6 ← matchGroup ng m 6
    let court := match court6 with
      | some c => if c = "" then "Unknown" else c
      | none => "Unknown"
    let year7 ← matchGroup ng m 7
    let year : Int := match year7 with
      | some y => if y = "" then 0 else parseYearDigits y
      | none => 0
    pure (.case (pyStrip g0) caseName volume reporter page court year)

/-- The `try/except (ValueError, AttributeError): continue` wrapper of the
loop body: those two exceptions skip the match, anything else propagates. -/
def buildCitationList (ng : Nat) : List RMatch → Except PyErr (List Citation)
  | [] => .ok []
  | m :: ms =>
    match buildCitation ng m with
    | .ok c => do
      let rest ← buildCitationList ng ms
      pure (c :: rest)
    | .error .valueError => buildCitationList ng ms
    | .error .attributeError => buildCitationList ng ms
    | .error e => .error e

/-- `_extract_legal_citations`: run the three patterns in their fixed order
over the motion text, build a record per match, and truncate to the first 50
records. -/
def extractLegalCitations (motionText : String) : Except PyErr (List Citation) := do
  let s := motionText.data
  let cs1 ← buildCitationList 7 (findAll patFederal s)
  let cs2 ← buildCitationList 7 (findAll patState s)
  let cs3 ← buildCitationList 3 (findAll patStatute s)
  pure ((cs1 ++ cs2 ++ cs3).take 50)

/-! ## Data model (`app/models/schemas.py`) and the analysis result type -/

/-- `StrengthLevel(str, Enum)` from `app/models/schemas.py`. -/
inductive StrengthLevel where
  | very_weak
  | weak
  | moderate
  | strong
  | very_strong
deriving DecidableEq, Repr

/-- The string values of `StrengthLevel`, in declaration order. -/
def strengthLevelValues : List String :=
  ["very_weak", "weak", "moderate", "strong", "very_strong"]

/-- The string values of `ArgumentCategory(str, Enum)` from
`app/models/schemas.py`, in declaration order (`{cat.value for cat in
ArgumentCategory}` in the post-processor). -/
def argumentCategoryValues : List String :=
  ["negligence_duty", "negligence_breach", "negligence_causation",
   "negligence_damages", "liability_issues", "causation_disputes",
   "damages_arguments", "procedural_defenses", "expert_witness_challenges",
   "evidence_admissibility"]

/-- `LegalCitation` from `app/models/schemas.py`. -/
structure LegalCitation where
  full_citation : String
  case_name : String
  legal_principle : String
  application : String
  jurisdiction : String
  year : Int
  is_binding : Bool
  citation_strength : StrengthLevel
deriving DecidableEq, Repr

/-- Modelled from the spec: `ExtractedArgument` is imported by
`motion_analyzer.py` but `app/models/schemas.py` does not define it (see the
name-level facts at the end of this file).  Fields follow §3 of the spec
("Argument": identifier, category — fixed enumeration or free-form custom
label, textual summary, legal basis, supporting case citations, statute
references, counterarguments, weaknesses, strength/confidence score,
response-priority rank) restricted to the attributes the pipeline reads and
writes (`argument_id`, `category`, `argument_summary`, `cited_cases`,
`cited_statutes`, plus the normalizer-defaulted numeric/list fields). -/
structure ExtractedArgument where
  argument_id : String
  category : String
  argument_summary : String
  legal_basis : String
  cited_cases : List LegalCitation
  cited_statutes : List String
  counterarguments : List String
  weaknesses : List String
  subcategories : List String
  strength_assessment : StrengthLevel
  confidence_score : ℚ
  priority_level : ℚ
deriving DecidableEq, Repr

/-- Modelled from the spec: the research-priority record used by the
post-processor.  `app/models/schemas.py` defines a `ResearchPriority` without
the `related_arguments` field that
`_post_process_comprehensive_analysis` reads and writes; the spec (§3,
"Research Priority") lists topic, priority rank, suggested sources, key
questions and optional back-references to related argument identifiers. -/
structure ResearchPriorityR where
  research_area : String
  priority_level : ℚ
  suggested_sources : List String
  key_questions : List String
  related_arguments : List String
deriving DecidableEq, Repr

/-- Modelled from the spec: `ComprehensiveMotionAnalysis` is imported by
`motion_analyzer.py` but `app/models/schemas.py` does not define it.  Fields
follow §3 of the spec ("Analysis Result": flat argument list,
category-indexed grouping, categories used, custom categories, notable
omissions, research priorities, total-arguments-found count) restricted to
the attributes the post-processor reads and writes. -/
structure ComprehensiveMotionAnalysis where
  all_arguments : List ExtractedArgument
  arguments_by_category : List (String × List ExtractedArgument)
  categories_used : List String
  custom_categories_created : List String
  notable_omissions : List String
  research_priorities : List ResearchPriorityR
  total_arguments_found : Nat
  confidence_in_analysis : ℚ
deriving DecidableEq, Repr

/-! ## `_check_for_missed_arguments` -/

/-- `.` in a pattern without `re.DOTALL`: any character except newline. -/
def dotCh : RE := .cls fun c => c ≠ '\n'

/-- `patterns_to_check` of `_check_for_missed_arguments`: each regex with its
description, in source order. -/
def patternsToCheck : List (RE × String) :=
  [(litCI "statute of limitations", "Statute of limitations argument"),
   (litCI "failure to state a claim", "Failure to state a claim argument"),
   (litCI "lack of standing", "Standing challenge"),
   (litCI "improper venue", "Venue challenge"),
   (litCI "personal jurisdiction", "Personal jurisdiction challenge"),
   (rcat [litCI "failure to join", .star dotCh, litCI "party"],
     "Failure to join necessary party"),
   (.alt (litCI "res judicata") (litCI "collateral estoppel"),
     "Preclusion argument"),
   (.alt (litCI "arbitration clause") (litCI "agreement"),
     "Arbitration argument"),
   (litCI "qualified immunity", "Qualified immunity defense"),
   (litCI "governmental immunity", "Governmental immunity defense")]

/-- `_check_for_missed_arguments`: for each pattern found in the motion text
(`re.IGNORECASE`) but not in the concatenation of the lower-cased argument
summaries, record a potential-omission note; return at most the first 5. -/
def checkForMissedArguments (motionText : String)
    (result : ComprehensiveMotionAnalysis) : List String :=
  let existingSummaries :=
    String.intercalate " "
      (result.all_arguments.map fun arg => pyLower arg.argument_summary)
  (patternsToCheck.filterMap fun pd =>
    if pySearch pd.1 motionText && !pySearch pd.1 existingSummaries then
      some ("Potential " ++ pd.2 ++ " not fully extracted")
    else none).take 5

/-! ## `_post_process_comprehensive_analysis` -/

/-- The set (here: list, membership only) of lower-cased extracted case
names: `{cite['case_name'].lower() for cite in extracted_citations if
cite.get('type') == 'case'}`. -/
def validCaseCitations (extracted : List Citation) : List String :=
  extracted.filterMap fun c =>
    match c with
    | .case _ caseName _ _ _ _ _ => some (pyLower caseName)
    | _ => none

/-- The set of lower-cased extracted statute citation strings:
`{cite['full_citation'].lower() for cite in extracted_citations if
cite.get('type') == 'statute'}`. -/
def validStatuteCitations (extracted : List Citation) : List String :=
  extracted.filterMap fun c =>
    match c with
    | .statute fullCitation _ _ _ => some (pyLower fullCitation)
    | _ => none

/-- The per-argument citation cleaning loop: keep a cited case when its
lower-cased name occurs in the lower-cased motion text or is a member of the
valid-case set; keep a cited statute when it occurs in the lower-cased motion
text or inside some extracted statute citation string. -/
def cleanArgument (motionText : String) (validCases validStatutes : List String)
    (arg : ExtractedArgument) : ExtractedArgument :=
  { arg with
    cited_cases := arg.cited_cases.filter fun citation =>
      strContains (pyLower motionText) (pyLower citation.case_name) ||
        validCases.contains (pyLower citation.case_name)
    cited_statutes := arg.cited_statutes.filter fun statute =>
      strContains (pyLower motionText) (pyLower statute) ||
        validStatutes.any fun cite => strContains cite (pyLower statute) }

/-- `_post_process_comprehensive_analysis`: clean citations, append
potentially-missed-argument notes, link research priorities lacking explicit
argument references to up to three arguments whose summary contains the
research area, and recompute the metadata fields. -/
def postProcessComprehensiveAnalysis (result : ComprehensiveMotionAnalysis)
    (motionText : String) (extracted : List Citation) :
    ComprehensiveMotionAnalysis :=
  let validCases := validCaseCitations extracted
  let validStatutes := validStatuteCitations extracted
  let args := result.all_arguments.map
    (cleanArgument motionText validCases validStatutes)
  let afterClean := { result with all_arguments := args }
  let potentialMissed := checkForMissedArguments motionText afterClean
  let omissions := result.notable_omissions ++ potentialMissed
  let priorities := result.research_priorities.map fun priority =>
    if priority.related_arguments.isEmpty then
      { priority with
        related_arguments :=
          ((args.filter fun arg =>
              strContains (pyLower arg.argument_summary)
                (pyLower priority.research_area)).map
            fun arg => arg.argument_id).take 3 }
    else priority
  let categoriesUsed := result.arguments_by_category.map fun kv => kv.1
  { result with
    all_arguments := args
    notable_omissions := omissions
    research_priorities := priorities
    total_arguments_found := args.length
    categories_used := categoriesUsed
    custom_categories_created :=
      categoriesUsed.filter fun cat => !argumentCategoryValues.contains cat }

/-! ## The Prompt Builder: `_get_system_prompt`

`_get_system_prompt` takes no inputs besides `self` (which it does not read)
and returns a fixed string literal, reproduced here verbatim. -/

/-- The system instruction returned by `_get_system_prompt`. -/
def getSystemPrompt : String :=
  "You are an expert legal analyst specializing in comprehensive motion analysis. Your primary goal is to extract EVERY SINGLE ARGUMENT from the opposing counsel\x27s motion, no matter how minor, then categorize and analyze each one.\n\nCRITICAL INSTRUCTION: Extract ALL arguments first, then assign categories. Do not limit yourself to predefined categories.\n\nAnalysis Process:\n1. READ THOROUGHLY: Read the entire motion carefully\n2. EXTRACT EVERYTHING: Identify every distinct argument, claim, or legal position\n3. QUOTE OR PARAPHRASE: For each argument, provide the actual text or close paraphrase\n4. CATEGORIZE FLEXIBLY: Assign the most appropriate category, create custom ones if needed\n5. ANALYZE COMPREHENSIVELY: Evaluate strength, identify weaknesses, note citations\n6. GROUP STRATEGICALLY: Identify related arguments that work together\n7. IDENTIFY PATTERNS: Note overall strategies and themes\n\nArgument Extraction Rules:\n- Extract MAJOR arguments (primary claims, key legal theories)\n- Extract MINOR arguments (supporting points, subsidiary claims)  \n- Extract PROCEDURAL arguments (jurisdiction, venue, timing, etc.)\n- Extract IMPLIED arguments (positions implied but not explicitly stated)\n- Extract FACTUAL assertions that support legal arguments\n- Note MISSING arguments (what they could have argued but didn\x27t)\n\nCategories to Consider (but not limited to):\n- Negligence elements (duty, breach, causation, damages)\n- Liability theories (vicarious, direct, derivative, comparative, etc.)\n- Causation types (proximate, factual, intervening, superseding)\n- Damages (economic, non-economic, punitive, mitigation)\n- Procedural (jurisdiction, venue, service, statute of limitations, standing)\n- Evidence (admissibility, relevance, prejudice, hearsay, privilege)\n- Expert witness (qualification, methodology, reliability, Daubert)\n- Contract, insurance, constitutional issues\n- Create CUSTOM categories as needed for arguments that don\x27t fit\n\nFor Each Argument Include:\n- Unique ID (arg_001, arg_002, etc.)\n- Direct quote or close paraphrase from motion\n- Location in motion (section/paragraph)\n- Category (use existing or create custom)\n- Strength assessment with specific reasons\n- Citations used to support it\n- Potential weaknesses\n- Counter-arguments available\n- Priority for response (1-5)\n\nLegal Citation Requirements:\n- Extract ONLY citations that appear in the motion text\n- Never fabricate citations\n- Include full citation, case name, principle, and application\n- Note if citation is binding or persuasive authority\n\nStrategic Analysis:\n- Group related arguments that build on each other\n- Identify overarching themes and strategies\n- Note which arguments are strongest/weakest\n- Identify what evidence or experts would be needed to counter\n- Suggest optimal response structure\n\nYou must respond with a valid JSON object following the exact structure provided, capturing EVERY argument in the motion."

/-! ## Name-level facts about the analyzer module and the schemas module -/

/-- The names bound at top level by `app/models/schemas.py` (its enum and
model classes). -/
def schemasDefinedNames : List String :=
  ["MotionType", "ArgumentCategory", "StrengthLevel", "AnalysisOptions",
   "LegalCitation", "Argument", "ResearchPriority", "MotionAnalysisRequest",
   "MotionAnalysisResult", "MotionAnalysisResponse", "HealthCheck"]

/-- The names `app/services/motion_analyzer.py` imports with
`from app.models.schemas import ...` (lines 12–21). -/
def analyzerImportedNames : List String :=
  ["ComprehensiveMotionAnalysis", "ExtractedArgument", "ArgumentGroup",
   "LegalCitation", "ResearchPriority", "ArgumentCategory", "StrengthLevel",
   "AnalysisOptions"]

/-- The fields of the `Argument` pydantic model defined in
`app/models/schemas.py` (lines 51–58). -/
def argumentModelFields : List String :=
  ["category", "argument_summary", "legal_basis", "strength_indicators",
   "cited_cases", "counterarguments", "strength_assessment"]

/-- The fields of the `ResearchPriority` pydantic model defined in
`app/models/schemas.py` (lines 60–64). -/
def researchPriorityModelFields : List String :=
  ["research_area", "priority_level", "suggested_sources", "key_questions"]

/-- Argument-entry attributes that `_ensure_comprehensive_structure` writes
and `_post_process_comprehensive_analysis` reads/writes but the `Argument`
model does not declare. -/
def analyzerExtraArgumentFields : List String :=
  ["argument_id", "confidence_score", "priority_level", "subcategories",
   "weaknesses", "cited_statutes"]

/-! ## Generic helpers for reasoning about `Except` computations -/

instance {ε α : Type} [DecidableEq ε] [DecidableEq α] :
    DecidableEq (Except ε α) := fun x y =>
  match x, y with
  | .ok a, .ok b =>
    if h : a = b then .isTrue (by rw [h]) else .isFalse (by simp [h])
  | .error a, .error b =>
    if h : a = b then .isTrue (by rw [h]) else .isFalse (by simp [h])
  | .ok _, .error _ => .isFalse (by simp)
  | .error _, .ok _ => .isFalse (by simp)

theorem except_bind_ok {α β : Type} {x : Except PyErr α}
    {f : α → Except PyErr β} {b : β} (h : (x >>= f) = .ok b) :
    ∃ a, x = .ok a ∧ f a = .ok b := by
  cases x with
  | ok a => exact ⟨a, rfl, h⟩
  | error e => simp [Bind.bind, Except.bind] at h

theorem except_ok_bind {α β : Type} {x : Except PyErr α}
    {f : α → Except PyErr β} {a : α} (h : x = .ok a) :
    (x >>= f) = f a := by
  subst h; rfl

/-! ## Lemmas about the normalizer stages -/

theorem stage1_lookup_ne {d d1 : JDict} (h : stage1 d = .ok d1) (k : JKey)
    (hk : k ≠ kAllArguments) : jLookup d1 k = jLookup d k := by
  unfold stage1 at h
  cases hv : jLookup d kAllArguments with
  | none => rw [hv] at h; cases h; rfl
  | some v =>
    rw [hv] at h
    obtain ⟨entries, _, h⟩ := except_bind_ok h
    obtain ⟨entries', _, h⟩ := except_bind_ok h
    simp only [pure, Except.pure, Except.ok.injEq] at h
    subst h
    cases v <;> simp [jLookup_jSet_ne _ _ _ _ hk]

theorem stage2_lookup_ne {d d1 : JDict} (h : stage2 d = .ok d1) (k : JKey)
    (hk : k ≠ kArgsByCategory) : jLookup d1 k = jLookup d k := by
  unfold stage2 at h
  cases hv : jLookup d kArgsByCategory with
  | some v => rw [hv] at h; cases h; rfl
  | none =>
    rw [hv] at h
    cases hw : jLookup d kAllArguments with
    | none => rw [hw] at h; cases h; rfl
    | some v =>
      rw [hw] at h
      obtain ⟨entries, _, h⟩ := except_bind_ok h
      obtain ⟨g, _, h⟩ := except_bind_ok h
      simp only [pure, Except.pure, Except.ok.injEq] at h
      subst h
      exact jLookup_jSet_ne _ _ _ _ hk

theorem stage3_lookup_ne {d d1 : JDict} (h : stage3 d = .ok d1) (k : JKey)
    (hk : k ≠ kTotalFound) : jLookup d1 k = jLookup d k := by
  unfold stage3 at h
  obtain ⟨n, _, h⟩ := except_bind_ok h
  simp only [pure, Except.pure, Except.ok.injEq] at h
  subst h
  exact jLookup_jSet_ne _ _ _ _ hk

theorem stage4_lookup_ne {d d1 : JDict} (h : stage4 d = .ok d1) (k : JKey)
    (hk : k ≠ kCategoriesUsed) : jLookup d1 k = jLookup d k := by
  unfold stage4 at h
  cases hv : jLookup d kCategoriesUsed with
  | some v => rw [hv] at h; cases h; rfl
  | none =>
    rw [hv] at h
    obtain ⟨ks, _, h⟩ := except_bind_ok h
    simp only [pure, Except.pure, Except.ok.injEq] at h
    subst h
    exact jLookup_jSet_ne _ _ _ _ hk

theorem stage5_lookup_ne (d : JDict) (k : JKey) (hk : k ≠ kConfidence) :
    jLookup (stage5 d) k = jLookup d k := by
  unfold stage5
  cases jLookup d kConfidence with
  | some v => rfl
  | none => exact jLookup_jSet_ne _ _ _ _ hk

theorem ensure_parts {d d' : JDict}
    (h : ensureComprehensiveStructure d = .ok d') :
    ∃ d1 d2 d3 d4, stage1 d = .ok d1 ∧ stage2 d1 = .ok d2 ∧
      stage3 d2 = .ok d3 ∧ stage4 d3 = .ok d4 ∧ d' = stage5 d4 := by
  unfold ensureComprehensiveStructure at h
  obtain ⟨d1, h1, h⟩ := except_bind_ok h
  obtain ⟨d2, h2, h⟩ := except_bind_ok h
  obtain ⟨d3, h3, h⟩ := except_bind_ok h
  obtain ⟨d4, h4, h⟩ := except_bind_ok h
  simp only [pure, Except.pure, Except.ok.injEq] at h
  exact ⟨d1, d2, d3, d4, h1, h2, h3, h4, h.symm⟩

theorem stage3_total {d d3 : JDict} (h : stage3 d = .ok d3) :
    ∃ n, pyLen (jGetD d kAllArguments (.jarr [])) = .ok n ∧
      d3 = jSet d kTotalFound (.jnum n) := by
  unfold stage3 at h
  obtain ⟨n, hn, h⟩ := except_bind_ok h
  simp only [pure, Except.pure, Except.ok.injEq] at h
  exact ⟨n, hn, h.symm⟩

/-- After normalization the stored total equals the length of the stored flat
argument list. -/
theorem ensure_total_eq_length {d d' : JDict} {xs : List JVal}
    (h : ensureComprehensiveStructure d = .ok d')
    (hx : jLookup d' kAllArguments = some (.jarr xs)) :
    jLookup d' kTotalFound = some (.jnum xs.length) := by
  obtain ⟨d1, d2, d3, d4, h1, h2, h3, h4, h5⟩ := ensure_parts h
  obtain ⟨n, hn, hset⟩ := stage3_total h3
  have e1 : jLookup d' kAllArguments = jLookup d2 kAllArguments := by
    rw [h5, stage5_lookup_ne _ _ (by decide),
      stage4_lookup_ne h4 _ (by decide), hset,
      jLookup_jSet_ne _ _ _ _ (by decide)]
  rw [e1] at hx
  rw [jGetD, hx] at hn
  simp only [Option.getD, pyLen, Except.ok.injEq] at hn
  have e2 : jLookup d' kTotalFound = some (.jnum n) := by
    rw [h5, stage5_lookup_ne _ _ (by decide),
      stage4_lookup_ne h4 _ (by decide), hset, jLookup_jSet_self]
  rw [e2, hn]

/-! ## Lemmas about the per-argument backfill loop -/

theorem jHasKey_jSet_of {d : JDict} {k' : JKey} (k : JKey) (v : JVal)
    (h : jHasKey d k' = true) : jHasKey (jSet d k v) k' = true := by
  by_cases hk : k' = k
  · subst hk
    simp [jHasKey, jLookup_jSet_self]
  · rwa [jHasKey, jLookup_jSet_ne _ _ _ _ hk]

theorem defStep_obj (key : String) (dflt : JVal) (kvs : JDict) :
    defStep key dflt (.jobj kvs) =
      .ok (.jobj (if jHasKey kvs (.kstr key) then kvs
        else jSet kvs (.kstr key) dflt)) := by
  by_cases h : jHasKey kvs (.kstr key) <;>
    simp [defStep, pyStrNotIn, pySetItem, h, Bind.bind, Except.bind, pure,
      Except.pure]

/-- A successful `defStep` leaves the key present (dicts) or proves it was
already "present" in the Python `in` sense (strings, lists). -/
theorem defStep_key_present {key : String} {dflt : JVal} {arg arg' : JVal}
    (h : defStep key dflt arg = .ok arg') :
    pyStrNotIn key arg' = .ok false := by
  cases arg with
  | jobj kvs =>
    rw [defStep_obj] at h
    cases h
    by_cases hk : jHasKey kvs (.kstr key)
    · rw [if_pos hk]
      simp [pyStrNotIn, hk]
    · rw [if_neg hk]
      simp [pyStrNotIn, jHasKey, jLookup_jSet_self]
  | jstr s =>
    by_cases hk : strContains s key
    · simp [defStep, pyStrNotIn, hk, Bind.bind, Except.bind, pure,
        Except.pure] at h
      cases h
      simp [pyStrNotIn, hk]
    · simp [defStep, pyStrNotIn, hk, Bind.bind, Except.bind, pySetItem] at h
  | jarr xs =>
    by_cases hk : (xs.any fun e => match e with
      | .jstr s => s = key | _ => false) = true
    · simp [defStep, pyStrNotIn, hk, Bind.bind, Except.bind, pure,
        Except.pure] at h
      cases h
      simp [pyStrNotIn, hk]
    · simp [defStep, pyStrNotIn, hk, Bind.bind, Except.bind, pySetItem] at h
  | jnull => simp [defStep, pyStrNotIn, Bind.bind, Except.bind] at h
  | jbool b => simp [defStep, pyStrNotIn, Bind.bind, Except.bind] at h
  | jnum q => simp [defStep, pyStrNotIn, Bind.bind, Except.bind] at h

/-- A successful `defStep` preserves presence of any other key. -/
theorem defStep_preserves_present {k2 key : String} {dflt : JVal}
    {arg arg' : JVal} (hp : pyStrNotIn k2 arg = .ok false)
    (h : defStep key dflt arg = .ok arg') :
    pyStrNotIn k2 arg' = .ok false := by
  cases arg with
  | jobj kvs =>
    rw [defStep_obj] at h
    cases h
    by_cases hk : jHasKey kvs (.kstr key)
    · simpa [hk] using hp
    · simp only [pyStrNotIn, Except.ok.injEq, Bool.not_eq_false'] at hp ⊢
      simp [hk, jHasKey_jSet_of _ _ hp]
  | jstr s =>
    by_cases hk : strContains s key
    · simp [defStep, pyStrNotIn, hk, Bind.bind, Except.bind, pure,
        Except.pure] at h
      cases h; exact hp
    · simp [defStep, pyStrNotIn, hk, Bind.bind, Except.bind, pySetItem] at h
  | jarr xs =>
    by_cases hk : (xs.any fun e => match e with
      | .jstr s => s = key | _ => false) = true
    · simp [defStep, pyStrNotIn, hk, Bind.bind, Except.bind, pure,
        Except.pure] at h
      cases h; exact hp
    · simp [defStep, pyStrNotIn, hk, Bind.bind, Except.bind, pySetItem] at h
  | jnull => simp [defStep, pyStrNotIn, Bind.bind, Except.bind] at h
  | jbool b => simp [defStep, pyStrNotIn, Bind.bind, Except.bind] at h
  | jnum q => simp [defStep, pyStrNotIn, Bind.bind, Except.bind] at h

/-- When the key is already present `defStep` is the identity. -/
theorem defStep_noop {key : String} {dflt : JVal} {arg : JVal}
    (hp : pyStrNotIn key arg = .ok false) :
    defStep key dflt arg = .ok arg := by
  unfold defStep
  rw [hp]
  rfl

/-- The effect of one backfill statement on a dict argument. -/
def objStep (key : String) (dflt : JVal) (kvs : JDict) : JDict :=
  if jHasKey kvs (.kstr key) then kvs else jSet kvs (.kstr key) dflt

theorem defStep_objStep (key : String) (dflt : JVal) (kvs : JDict) :
    defStep key dflt (.jobj kvs) = .ok (.jobj (objStep key dflt kvs)) :=
  defStep_obj key dflt kvs

theorem objStep_lookup_ne (key : String) (dflt : JVal) (kvs : JDict)
    (k : JKey) (hk : k ≠ .kstr key) :
    jLookup (objStep key dflt kvs) k = jLookup kvs k := by
  unfold objStep
  by_cases h : jHasKey kvs (.kstr key)
  · rw [if_pos h]
  · rw [if_neg h, jLookup_jSet_ne _ _ _ _ hk]

/-- `normArg` maps a dict argument to a dict argument: the six backfill
statements in source order. -/
theorem normArg_obj_eq (i : Nat) (kvs : JDict) :
    normArg i (.jobj kvs) = .ok (.jobj (
      objStep "cited_statutes" (.jarr []) (objStep "weaknesses" (.jarr [])
        (objStep "subcategories" (.jarr []) (objStep "priority_level" (.jnum 3)
          (objStep "confidence_score" (.jnum 0.8)
            (objStep "argument_id" (.jstr (argIdFormat (i + 1)))
              kvs))))))) := by
  unfold normArg
  rw [except_ok_bind (defStep_objStep _ _ _),
    except_ok_bind (defStep_objStep _ _ _),
    except_ok_bind (defStep_objStep _ _ _),
    except_ok_bind (defStep_objStep _ _ _),
    except_ok_bind (defStep_objStep _ _ _),
    except_ok_bind (defStep_objStep _ _ _)]
  rfl

/-- On dict arguments `normArg` never raises and leaves every key other than
the six backfilled ones unchanged (in particular `category`). -/
theorem normArg_obj_lookup_category (i : Nat) (kvs : JDict) :
    ∃ kvs', normArg i (.jobj kvs) = .ok (.jobj kvs') ∧
      jLookup kvs' (.kstr "category") = jLookup kvs (.kstr "category") := by
  refine ⟨_, normArg_obj_eq i kvs, ?_⟩
  rw [objStep_lookup_ne _ _ _ _ (by decide),
    objStep_lookup_ne _ _ _ _ (by decide),
    objStep_lookup_ne _ _ _ _ (by decide),
    objStep_lookup_ne _ _ _ _ (by decide),
    objStep_lookup_ne _ _ _ _ (by decide),
    objStep_lookup_ne _ _ _ _ (by decide)]

/-- A dict argument lacking `argument_id` gets exactly `arg_{i+1:03d}`. -/
theorem normArg_sets_id (i : Nat) (kvs : JDict)
    (hid : jHasKey kvs (.kstr "argument_id") = false) :
    ∃ kvs', normArg i (.jobj kvs) = .ok (.jobj kvs') ∧
      jLookup kvs' (.kstr "argument_id") =
        some (.jstr (argIdFormat (i + 1))) := by
  refine ⟨_, normArg_obj_eq i kvs, ?_⟩
  rw [objStep_lookup_ne _ _ _ _ (by decide),
    objStep_lookup_ne _ _ _ _ (by decide),
    objStep_lookup_ne _ _ _ _ (by decide),
    objStep_lookup_ne _ _ _ _ (by decide),
    objStep_lookup_ne _ _ _ _ (by decide)]
  unfold objStep
  rw [if_neg (by simp [hid]), jLookup_jSet_self]

/-- Re-running `normArg` on its own output changes nothing. -/
theorem normArg_fix {i : Nat} {arg arg' : JVal}
    (h : normArg i arg = .ok arg') : normArg i arg' = .ok arg' := by
  unfold normArg at h
  obtain ⟨a1, h1, h⟩ := except_bind_ok h
  obtain ⟨a2, h2, h⟩ := except_bind_ok h
  obtain ⟨a3, h3, h⟩ := except_bind_ok h
  obtain ⟨a4, h4, h⟩ := except_bind_ok h
  obtain ⟨a5, h5, h⟩ := except_bind_ok h
  obtain ⟨a6, h6, h⟩ := except_bind_ok h
  simp only [pure, Except.pure, Except.ok.injEq] at h
  subst h
  have p1 := defStep_preserves_present (defStep_preserves_present
    (defStep_preserves_present (defStep_preserves_present
      (defStep_preserves_present (defStep_key_present h1) h2) h3) h4) h5) h6
  have p2 := defStep_preserves_present (defStep_preserves_present
    (defStep_preserves_present (defStep_preserves_present
      (defStep_key_present h2) h3) h4) h5) h6
  have p3 := defStep_preserves_present (defStep_preserves_present
    (defStep_preserves_present (defStep_key_present h3) h4) h5) h6
  have p4 := defStep_preserves_present (defStep_preserves_present
    (defStep_key_present h4) h5) h6
  have p5 := defStep_preserves_present (defStep_key_present h5) h6
  have p6 := defStep_key_present h6
  unfold normArg
  rw [except_ok_bind (defStep_noop p1), except_ok_bind (defStep_noop p2),
    except_ok_bind (defStep_noop p3), except_ok_bind (defStep_noop p4),
    except_ok_bind (defStep_noop p5), except_ok_bind (defStep_noop p6)]
  rfl

theorem mapWithIdx_fix {i : Nat} {xs ys : List JVal}
    (h : mapWithIdx normArg i xs = .ok ys) :
    mapWithIdx normArg i ys = .ok ys := by
  induction xs generalizing i ys with
  | nil =>
    unfold mapWithIdx at h
    cases h
    rfl
  | cons x xt ih =>
    unfold mapWithIdx at h
    obtain ⟨y, hy, h⟩ := except_bind_ok h
    obtain ⟨yt, hyt, h⟩ := except_bind_ok h
    simp only [pure, Except.pure, Except.ok.injEq] at h
    subst h
    unfold mapWithIdx
    rw [except_ok_bind (normArg_fix hy), except_ok_bind (ih hyt)]
    rfl

theorem mapWithIdx_get {f : Nat → JVal → Except PyErr JVal} {i : Nat}
    {xs ys : List JVal} (h : mapWithIdx f i xs = .ok ys) :
    ∀ j x, xs.get? j = some x →
      ∃ y, ys.get? j = some y ∧ f (i + j) x = .ok y := by
  induction xs generalizing i ys with
  | nil => intro j x hx; simp at hx
  | cons a xt ih =>
    unfold mapWithIdx at h
    obtain ⟨y, hy, h⟩ := except_bind_ok h
    obtain ⟨yt, hyt, h⟩ := except_bind_ok h
    simp only [pure, Except.pure, Except.ok.injEq] at h
    subst h
    intro j x hx
    cases j with
    | zero =>
      simp only [List.get?] at hx
      cases hx
      exact ⟨y, rfl, hy⟩
    | succ j' =>
      simp only [List.get?] at hx ⊢
      obtain ⟨y', hy', hf⟩ := ih hyt j' x hx
      refine ⟨y', hy', ?_⟩
      rw [show i + (j' + 1) = i + 1 + j' by omega]
      exact hf

/-- Characterization of step 1 when the received `all_arguments` is a list:
the normalized entries are written back. -/
theorem stage1_arr {d d1 : JDict} {xs : List JVal}
    (h : stage1 d = .ok d1)
    (hv : jLookup d kAllArguments = some (.jarr xs)) :
    ∃ ys, mapWithIdx normArg 0 xs = .ok ys ∧
      d1 = jSet d kAllArguments (.jarr ys) := by
  unfold stage1 at h
  rw [hv] at h
  have h' : (mapWithIdx normArg 0 xs >>= fun ys =>
      pure (jSet d kAllArguments (.jarr ys)) : Except PyErr JDict) = .ok d1 := h
  obtain ⟨ys, hys, h2⟩ := except_bind_ok h'
  simp only [pure, Except.pure, Except.ok.injEq] at h2
  exact ⟨ys, hys, h2.symm⟩

theorem laterStages_preserve_allArguments {d1 d2 d3 d4 d' : JDict}
    (h2 : stage2 d1 = .ok d2) (h3 : stage3 d2 = .ok d3)
    (h4 : stage4 d3 = .ok d4) (h5 : d' = stage5 d4) :
    jLookup d' kAllArguments = jLookup d1 kAllArguments := by
  rw [h5, stage5_lookup_ne _ _ (by decide), stage4_lookup_ne h4 _ (by decide),
    stage3_lookup_ne h3 _ (by decide), stage2_lookup_ne h2 _ (by decide)]

/-- The normalized dict stores, under `all_arguments`, the entrywise
`normArg` image of the received list. -/
theorem ensure_allArguments {d d' : JDict} {xs : List JVal}
    (h : ensureComprehensiveStructure d = .ok d')
    (hv : jLookup d kAllArguments = some (.jarr xs)) :
    ∃ ys, mapWithIdx normArg 0 xs = .ok ys ∧
      jLookup d' kAllArguments = some (.jarr ys) := by
  obtain ⟨d1, d2, d3, d4, h1, h2, h3, h4, h5⟩ := ensure_parts h
  obtain ⟨ys, hys, hd1⟩ := stage1_arr h1 hv
  refine ⟨ys, hys, ?_⟩
  rw [laterStages_preserve_allArguments h2 h3 h4 h5, hd1, jLookup_jSet_self]

/-! ## Totality of the normalizer on well-shaped inputs -/

/-- An argument entry that is a dict whose `category`, if any, is a string. -/
def benignEntry : JVal → Bool
  | .jobj kvs =>
    match jLookup kvs (.kstr "category") with
    | none => true
    | some (.jstr _) => true
    | some _ => false
  | _ => false

/-- A parsed response dict whose `all_arguments`, when present, is a list of
benign entries and whose `arguments_by_category`, when present, is a dict. -/
def benignNormalizerInput (d : JDict) : Bool :=
  (match jLookup d kAllArguments with
   | none => true
   | some (.jarr xs) => xs.all benignEntry
   | some _ => false) &&
  (match jLookup d kArgsByCategory with
   | none => true
   | some (.jobj _) => true
   | some _ => false)

theorem normArg_benign {e : JVal} (i : Nat) (he : benignEntry e = true) :
    ∃ e', normArg i e = .ok e' ∧ benignEntry e' = true := by
  cases e with
  | jobj kvs =>
    obtain ⟨kvs', hn, hcat⟩ := normArg_obj_lookup_category i kvs
    refine ⟨.jobj kvs', hn, ?_⟩
    simpa [benignEntry, hcat] using he
  | jnull => simp [benignEntry] at he
  | jbool b => simp [benignEntry] at he
  | jnum q => simp [benignEntry] at he
  | jstr s => simp [benignEntry] at he
  | jarr xs => simp [benignEntry] at he

theorem mapWithIdx_benign {xs : List JVal} (i : Nat)
    (hxs : xs.all benignEntry = true) :
    ∃ ys, mapWithIdx normArg i xs = .ok ys ∧ ys.all benignEntry = true := by
  induction xs generalizing i with
  | nil => exact ⟨[], rfl, rfl⟩
  | cons x xt ih =>
    simp only [List.all_cons, Bool.and_eq_true] at hxs
    obtain ⟨y, hy, hyb⟩ := normArg_benign i hxs.1
    obtain ⟨yt, hyt, hytb⟩ := ih (i + 1) hxs.2
    refine ⟨y :: yt, ?_, by simp [hyb, hytb]⟩
    unfold mapWithIdx
    rw [except_ok_bind hy, except_ok_bind hyt]
    rfl

/-- Invariant of the grouping dict: every stored value is a list. -/
def groupValuesAreLists (g : JDict) : Prop :=
  ∀ k v, jLookup g k = some v → ∃ zs, v = .jarr zs

theorem groupStep_ok {g : JDict} {e : JVal} (hg : groupValuesAreLists g)
    (he : benignEntry e = true) :
    ∃ g', groupStep g e = .ok g' ∧ groupValuesAreLists g' := by
  cases e with
  | jobj kvs =>
    have hcat : ∃ s, ((jLookup kvs (.kstr "category")).getD (.jstr "other")) =
        .jstr s := by
      cases hc : jLookup kvs (.kstr "category") with
      | none => exact ⟨"other", rfl⟩
      | some c =>
        simp only [benignEntry, hc] at he
        cases c <;> first
          | exact ⟨_, rfl⟩
          | simp at he
    obtain ⟨s, hs⟩ := hcat
    have hget : pyGetDefault (.jobj kvs) "category" (.jstr "other") =
        .ok (.jstr s) := by
      simp [pyGetDefault, hs]
    set g1 := if jHasKey g (.kstr s) then g else jSet g (.kstr s) (.jarr [])
      with hg1
    have hg1v : groupValuesAreLists g1 := by
      rw [hg1]
      by_cases hk : jHasKey g (.kstr s)
      · simpa [hk] using hg
      · rw [if_neg hk]
        intro k v hkv
        by_cases hks : k = .kstr s
        · subst hks
          rw [jLookup_jSet_self] at hkv
          cases hkv
          exact ⟨[], rfl⟩
        · rw [jLookup_jSet_ne _ _ _ _ hks] at hkv
          exact hg k v hkv
    have hmem : ∃ zs, jLookup g1 (.kstr s) = some (.jarr zs) := by
      rw [hg1]
      by_cases hk : jHasKey g (.kstr s)
      · rw [if_pos hk]
        unfold jHasKey at hk
        cases hl : jLookup g (.kstr s) with
        | none => rw [hl] at hk; simp at hk
        | some v =>
          obtain ⟨zs, hzs⟩ := hg _ _ hl
          exact ⟨zs, by rw [hzs]⟩
      · rw [if_neg hk, jLookup_jSet_self]
        exact ⟨[], rfl⟩
    obtain ⟨zs, hzs⟩ := hmem
    refine ⟨jSet g1 (.kstr s) (.jarr (zs ++ [.jobj kvs])), ?_, ?_⟩
    · unfold groupStep
      rw [except_ok_bind hget,
        except_ok_bind (show JVal.toKey (.jstr s) = .ok (.kstr s) from rfl)]
      simp only [← hg1, hzs]
      rfl
    · intro k v hkv
      by_cases hks : k = .kstr s
      · subst hks
        rw [jLookup_jSet_self] at hkv
        cases hkv
        exact ⟨_, rfl⟩
      · rw [jLookup_jSet_ne _ _ _ _ hks] at hkv
        exact hg1v k v hkv
  | jnull => simp [benignEntry] at he
  | jbool b => simp [benignEntry] at he
  | jnum q => simp [benignEntry] at he
  | jstr s => simp [benignEntry] at he
  | jarr xs => simp [benignEntry] at he

theorem foldlM_groupStep_ok {ys : List JVal} {g : JDict}
    (hg : groupValuesAreLists g) (hys : ys.all benignEntry = true) :
    ∃ g', ys.foldlM groupStep g = .ok g' := by
  induction ys generalizing g with
  | nil => exact ⟨g, rfl⟩
  | cons y yt ih =>
    simp only [List.all_cons, Bool.and_eq_true] at hys
    obtain ⟨g1, hg1, hg1v⟩ := groupStep_ok hg hys.1
    obtain ⟨g', hg'⟩ := ih hg1v hys.2
    refine ⟨g', ?_⟩
    rw [List.foldlM_cons, except_ok_bind hg1]
    exact hg'

/-- Shape of the `all_arguments` binding that keeps the normalizer raise-free:
absent, or a list of benign entries. -/
def benignAllArgs (d : JDict) : Prop :=
  jLookup d kAllArguments = none ∨
    ∃ xs, jLookup d kAllArguments = some (.jarr xs) ∧
      xs.all benignEntry = true

/-- Shape of the `arguments_by_category` binding: absent or a dict. -/
def benignByCategory (d : JDict) : Prop :=
  jLookup d kArgsByCategory = none ∨
    ∃ g, jLookup d kArgsByCategory = some (.jobj g)

theorem stage1_benign {d : JDict} (h : benignAllArgs d) :
    ∃ d1, stage1 d = .ok d1 ∧ benignAllArgs d1 := by
  rcases h with h | ⟨xs, hx, hxb⟩
  · refine ⟨d, ?_, .inl h⟩
    unfold stage1
    rw [h]
  · obtain ⟨ys, hys, hyb⟩ := mapWithIdx_benign 0 hxb
    refine ⟨jSet d kAllArguments (.jarr ys), ?_, ?_⟩
    · unfold stage1
      rw [hx]
      show (mapWithIdx normArg 0 xs >>= fun ys' =>
        pure (jSet d kAllArguments (.jarr ys')) : Except PyErr JDict) = _
      rw [except_ok_bind hys]
      rfl
    · exact .inr ⟨ys, by rw [jLookup_jSet_self], hyb⟩

theorem stage2_benign {d : JDict} (hall : benignAllArgs d)
    (habc : benignByCategory d) :
    ∃ d2, stage2 d = .ok d2 ∧ benignByCategory d2 ∧
      jLookup d2 kAllArguments = jLookup d kAllArguments := by
  cases habcv : jLookup d kArgsByCategory with
  | some w =>
    refine ⟨d, ?_, habc, rfl⟩
    unfold stage2
    rw [habcv]
  | none =>
    rcases hall with h | ⟨xs, hx, hxb⟩
    · refine ⟨d, ?_, .inl habcv, rfl⟩
      unfold stage2
      rw [habcv, h]
    · have hginv : groupValuesAreLists [] := by
        intro k v hkv
        simp [jLookup] at hkv
      obtain ⟨g', hg'⟩ := foldlM_groupStep_ok hginv hxb
      refine ⟨jSet d kArgsByCategory (.jobj g'), ?_, ?_, ?_⟩
      · unfold stage2
        rw [habcv, hx]
        show (List.foldlM groupStep [] xs >>= fun g =>
          pure (jSet d kArgsByCategory (.jobj g)) : Except PyErr JDict) = _
        rw [except_ok_bind hg']
        rfl
      · exact .inr ⟨g', by rw [jLookup_jSet_self]⟩
      · rw [jLookup_jSet_ne _ _ _ _ (by decide)]

theorem stage3_benign {d : JDict} (hall : benignAllArgs d) :
    ∃ d3, stage3 d = .ok d3 := by
  have hlen : ∃ n, pyLen (jGetD d kAllArguments (.jarr [])) = .ok n := by
    rcases hall with h | ⟨xs, hx, _⟩
    · exact ⟨0, by rw [jGetD, h]; rfl⟩
    · exact ⟨xs.length, by rw [jGetD, hx]; rfl⟩
  obtain ⟨n, hn⟩ := hlen
  refine ⟨jSet d kTotalFound (.jnum n), ?_⟩
  unfold stage3
  rw [except_ok_bind hn]
  rfl

theorem stage4_benign {d : JDict} (habc : benignByCategory d) :
    ∃ d4, stage4 d = .ok d4 := by
  cases hcu : jLookup d kCategoriesUsed with
  | some w =>
    refine ⟨d, ?_⟩
    unfold stage4
    rw [hcu]
  | none =>
    have hkeys : ∃ ks, pyKeys (jGetD d kArgsByCategory (.jobj [])) = .ok ks := by
      rcases habc with h | ⟨g, hg⟩
      · exact ⟨[], by rw [jGetD, h]; rfl⟩
      · exact ⟨g.map fun kv => kv.1.toVal, by rw [jGetD, hg]; rfl⟩
    obtain ⟨ks, hks⟩ := hkeys
    refine ⟨jSet d kCategoriesUsed (.jarr ks), ?_⟩
    unfold stage4
    rw [hcu, except_ok_bind hks]
    rfl

/-- On benign inputs the normalizer runs to completion: no Python exception
is raised. -/
theorem ensure_benign_total {d : JDict}
    (hb : benignNormalizerInput d = true) :
    ∃ d', ensureComprehensiveStructure d = .ok d' := by
  have hall : benignAllArgs d := by
    unfold benignNormalizerInput at hb
    rw [Bool.and_eq_true] at hb
    cases hx : jLookup d kAllArguments with
    | none => exact .inl hx
    | some v =>
      have := hb.1
      rw [hx] at this
      cases v <;> simp only at this
      · exact absurd this (by simp)
      · exact absurd this (by simp)
      · exact absurd this (by simp)
      · exact absurd this (by simp)
      · exact .inr ⟨_, hx, this⟩
      · exact absurd this (by simp)
  have habc : benignByCategory d := by
    unfold benignNormalizerInput at hb
    rw [Bool.and_eq_true] at hb
    cases hx : jLookup d kArgsByCategory with
    | none => exact .inl hx
    | some v =>
      have := hb.2
      rw [hx] at this
      cases v <;> simp at this
      exact .inr ⟨_, hx⟩
  obtain ⟨d1, h1, hall1⟩ := stage1_benign hall
  have habc1 : benignByCategory d1 := by
    unfold benignByCategory
    rw [stage1_lookup_ne h1 _ (by decide)]
    exact habc
  obtain ⟨d2, h2, habc2, e2⟩ := stage2_benign hall1 habc1
  have hall2 : benignAllArgs d2 := by
    unfold benignAllArgs
    rw [e2]
    exact hall1
  obtain ⟨d3, h3⟩ := stage3_benign hall2
  have habc3 : benignByCategory d3 := by
    unfold benignByCategory
    rw [stage3_lookup_ne h3 _ (by decide)]
    exact habc2
  obtain ⟨d4, h4⟩ := stage4_benign habc3
  refine ⟨stage5 d4, ?_⟩
  unfold ensureComprehensiveStructure
  rw [except_ok_bind h1, except_ok_bind h2, except_ok_bind h3,
    except_ok_bind h4]
  rfl

/-! ## Idempotence of the normalizer -/

theorem stage1_inv {d d1 : JDict} (h : stage1 d = .ok d1) :
    (jLookup d kAllArguments = none ∧ d1 = d) ∨
    (∃ v entries entries', jLookup d kAllArguments = some v ∧
      pyIterate v = .ok entries ∧
      mapWithIdx normArg 0 entries = .ok entries' ∧
      d1 = (match v with
        | .jarr _ => jSet d kAllArguments (.jarr entries')
        | _ => d)) := by
  unfold stage1 at h
  cases hv : jLookup d kAllArguments with
  | none =>
    rw [hv] at h
    cases h
    exact Or.inl (And.intro rfl rfl)
  | some v =>
    rw [hv] at h
    obtain ⟨entries, hent, h⟩ := except_bind_ok h
    obtain ⟨entries', hent', h⟩ := except_bind_ok h
    simp only [pure, Except.pure, Except.ok.injEq] at h
    exact .inr ⟨v, entries, entries', rfl, hent, hent', h.symm⟩

theorem stage2_inv {d d2 : JDict} (h : stage2 d = .ok d2) :
    ((∃ w, jLookup d kArgsByCategory = some w) ∧ d2 = d) ∨
    (jLookup d kArgsByCategory = none ∧
      jLookup d kAllArguments = none ∧ d2 = d) ∨
    (∃ g, jLookup d kArgsByCategory = none ∧
      d2 = jSet d kArgsByCategory (.jobj g)) := by
  unfold stage2 at h
  cases hv : jLookup d kArgsByCategory with
  | some w =>
    rw [hv] at h
    cases h
    exact Or.inl (And.intro ⟨w, rfl⟩ rfl)
  | none =>
    rw [hv] at h
    cases hw : jLookup d kAllArguments with
    | none =>
      rw [hw] at h
      cases h
      exact .inr (.inl ⟨rfl, rfl, rfl⟩)
    | some v =>
      rw [hw] at h
      obtain ⟨entries, hent, h⟩ := except_bind_ok h
      obtain ⟨g, hg, h⟩ := except_bind_ok h
      simp only [pure, Except.pure, Except.ok.injEq] at h
      exact .inr (.inr ⟨g, rfl, h.symm⟩)

theorem stage4_inv {d d4 : JDict} (h : stage4 d = .ok d4) :
    jHasKey d4 kCategoriesUsed = true := by
  unfold stage4 at h
  cases hv : jLookup d kCategoriesUsed with
  | some w =>
    rw [hv] at h
    cases h
    simp [jHasKey, hv]
  | none =>
    rw [hv] at h
    obtain ⟨ks, hks, h⟩ := except_bind_ok h
    simp only [pure, Except.pure, Except.ok.injEq] at h
    subst h
    simp [jHasKey, jLookup_jSet_self]

theorem stage5_has_confidence (d : JDict) :
    jHasKey (stage5 d) kConfidence = true := by
  unfold stage5
  cases hv : jLookup d kConfidence with
  | some w => simp [jHasKey, hv]
  | none => simp [jHasKey, jLookup_jSet_self]

theorem stage5_noop {d : JDict} (h : jHasKey d kConfidence = true) :
    stage5 d = d := by
  unfold stage5
  unfold jHasKey at h
  cases hv : jLookup d kConfidence with
  | some w => rfl
  | none => rw [hv] at h; simp at h

theorem stage1_fix_run2 {d d1 d' : JDict} (h1 : stage1 d = .ok d1)
    (hpres : jLookup d' kAllArguments = jLookup d1 kAllArguments) :
    stage1 d' = .ok d' := by
  rcases stage1_inv h1 with ⟨hnone, hd⟩ | ⟨v, entries, entries', hv, hent, hent', hd1⟩
  · subst hd
    rw [hnone] at hpres
    unfold stage1
    rw [hpres]
  · cases v with
    | jarr xs =>
      simp only [pyIterate, Except.ok.injEq] at hent
      subst hent
      simp only at hd1
      have hl1 : jLookup d1 kAllArguments = some (.jarr entries') := by
        rw [hd1, jLookup_jSet_self]
      rw [hl1] at hpres
      unfold stage1
      rw [hpres]
      show (mapWithIdx normArg 0 entries' >>= fun ys =>
        pure (jSet d' kAllArguments (.jarr ys)) : Except PyErr JDict) = _
      rw [except_ok_bind (mapWithIdx_fix hent')]
      simp only [pure, Except.pure, Except.ok.injEq]
      exact jSet_self _ _ _ hpres
    | jstr s =>
      simp only at hd1
      subst hd1
      rw [hv] at hpres
      unfold stage1
      rw [hpres]
      show (pyIterate (.jstr s) >>= fun entries2 =>
        mapWithIdx normArg 0 entries2 >>= fun ys =>
        pure (match JVal.jstr s with
          | .jarr _ => jSet d' kAllArguments (.jarr ys)
          | _ => d') : Except PyErr JDict) = _
      rw [except_ok_bind hent, except_ok_bind hent']
      rfl
    | jobj kvs =>
      simp only at hd1
      subst hd1
      rw [hv] at hpres
      unfold stage1
      rw [hpres]
      show (pyIterate (.jobj kvs) >>= fun entries2 =>
        mapWithIdx normArg 0 entries2 >>= fun ys =>
        pure (match JVal.jobj kvs with
          | .jarr _ => jSet d' kAllArguments (.jarr ys)
          | _ => d') : Except PyErr JDict) = _
      rw [except_ok_bind hent, except_ok_bind hent']
      rfl
    | jnull => simp [pyIterate] at hent
    | jbool b => simp [pyIterate] at hent
    | jnum q => simp [pyIterate] at hent

theorem stage2_fix_run2 {d1 d2 d' : JDict} (h2 : stage2 d1 = .ok d2)
    (hpresAbc : jLookup d' kArgsByCategory = jLookup d2 kArgsByCategory)
    (hpresAll : jLookup d' kAllArguments = jLookup d1 kAllArguments) :
    stage2 d' = .ok d' := by
  rcases stage2_inv h2 with ⟨⟨w, hw⟩, hd⟩ | ⟨habc, hall, hd⟩ | ⟨g, habc, hd2⟩
  · subst hd
    rw [hw] at hpresAbc
    unfold stage2
    rw [hpresAbc]
  · subst hd
    rw [habc] at hpresAbc
    rw [hall] at hpresAll
    unfold stage2
    rw [hpresAbc, hpresAll]
  · have : jLookup d2 kArgsByCategory = some (.jobj g) := by
      rw [hd2, jLookup_jSet_self]
    rw [this] at hpresAbc
    unfold stage2
    rw [hpresAbc]

theorem stage3_fix_run2 {d2 d3 d' : JDict} (h3 : stage3 d2 = .ok d3)
    (hpresAll : jLookup d' kAllArguments = jLookup d2 kAllArguments)
    (hpresTot : jLookup d' kTotalFound = jLookup d3 kTotalFound) :
    stage3 d' = .ok d' := by
  obtain ⟨n, hn, hd3⟩ := stage3_total h3
  have hn' : pyLen (jGetD d' kAllArguments (.jarr [])) = .ok n := by
    rw [jGetD, hpresAll, ← jGetD]
    exact hn
  have htot : jLookup d' kTotalFound = some (.jnum n) := by
    rw [hpresTot, hd3, jLookup_jSet_self]
  unfold stage3
  rw [except_ok_bind hn']
  simp only [pure, Except.pure, Except.ok.injEq]
  exact jSet_self _ _ _ htot

theorem stage4_fix_run2 {d3 d4 d' : JDict} (h4 : stage4 d3 = .ok d4)
    (h5 : d' = stage5 d4) : stage4 d' = .ok d' := by
  have hk : jHasKey d4 kCategoriesUsed = true := stage4_inv h4
  unfold jHasKey at hk
  have : jLookup d' kCategoriesUsed = jLookup d4 kCategoriesUsed := by
    rw [h5, stage5_lookup_ne _ _ (by decide)]
  cases hv : jLookup d4 kCategoriesUsed with
  | none => rw [hv] at hk; simp at hk
  | some w =>
    unfold stage4
    rw [this, hv]

/-- Running the normalizer on its own output is the identity: the Normalizer
output is a fixed point. -/
theorem ensure_idempotent {d d' : JDict}
    (h : ensureComprehensiveStructure d = .ok d') :
    ensureComprehensiveStructure d' = .ok d' := by
  obtain ⟨d1, d2, d3, d4, h1, h2, h3, h4, h5⟩ := ensure_parts h
  have hALL1 : jLookup d' kAllArguments = jLookup d1 kAllArguments :=
    laterStages_preserve_allArguments h2 h3 h4 h5
  have hALL2 : jLookup d' kAllArguments = jLookup d2 kAllArguments :=
    hALL1.trans (stage2_lookup_ne h2 _ (by decide)).symm
  have hABC : jLookup d' kArgsByCategory = jLookup d2 kArgsByCategory := by
    rw [h5, stage5_lookup_ne _ _ (by decide),
      stage4_lookup_ne h4 _ (by decide), stage3_lookup_ne h3 _ (by decide)]
  have hTOT : jLookup d' kTotalFound = jLookup d3 kTotalFound := by
    rw [h5, stage5_lookup_ne _ _ (by decide),
      stage4_lookup_ne h4 _ (by decide)]
  have r1 := stage1_fix_run2 h1 hALL1
  have r2 := stage2_fix_run2 h2 hABC hALL1
  have r3 := stage3_fix_run2 h3 hALL2 hTOT
  have r4 := stage4_fix_run2 h4 h5
  have r5 : stage5 d' = d' := by
    rw [h5]
    exact stage5_noop (stage5_has_confidence d4)
  unfold ensureComprehensiveStructure
  rw [except_ok_bind r1, except_ok_bind r2, except_ok_bind r3,
    except_ok_bind r4, r5]
  rfl

/-! ## Order and provenance of the extractor's matches -/

theorem scanAux_bounds (r : RE) (s : List Char) :
    ∀ rem pos, (∀ m ∈ scanAux r s rem pos, pos ≤ m.start) ∧
      List.Chain' (· < ·) ((scanAux r s rem pos).map RMatch.start) := by
  intro rem
  induction rem with
  | zero => intro pos; simp [scanAux]
  | succ rem ih =>
    intro pos
    unfold scanAux
    by_cases hp : pos < s.length + 1
    · rw [if_pos hp]
      cases hm : matchAt r (s.drop pos) with
      | none =>
        obtain ⟨ihb, ihc⟩ := ih (pos + 1)
        exact ⟨fun m hmem => le_trans (by omega) (ihb m hmem), ihc⟩
      | some res =>
        obtain ⟨consumed, caps⟩ := res
        obtain ⟨ihb, ihc⟩ := ih (pos + max consumed 1)
        constructor
        · intro m hmem
          rcases List.mem_cons.mp hmem with hmem | hmem
          · rw [hmem]
          · exact le_trans (by omega) (ihb m hmem)
        · rw [List.map_cons]
          rw [List.chain'_cons']
          refine ⟨?_, ihc⟩
          intro y hy
          have hy' := List.mem_of_mem_head? hy
          obtain ⟨m, hmem, hym⟩ := List.mem_map.mp hy'
          have := ihb m hmem
          simp only [← hym] at this ⊢
          omega
    · rw [if_neg hp]
      simp

theorem take_isPre (n : Nat) (l : List Char) : l.take n <+: l :=
  ⟨l.drop n, l.take_append_drop n⟩

theorem scanAux_matched_sub (r : RE) (s : List Char) :
    ∀ rem pos, ∀ m ∈ scanAux r s rem pos, m.matched <:+: s := by
  intro rem
  induction rem with
  | zero => intro pos; simp [scanAux]
  | succ rem ih =>
    intro pos
    unfold scanAux
    by_cases hp : pos < s.length + 1
    · rw [if_pos hp]
      cases hm : matchAt r (s.drop pos) with
      | none => exact ih (pos + 1)
      | some res =>
        obtain ⟨consumed, caps⟩ := res
        intro m hmem
        rcases List.mem_cons.mp hmem with hmem | hmem
        · rw [hmem]
          exact (take_isPre consumed (s.drop pos)).isInfix.trans
            (s.drop_suffix pos).isInfix
        · exact ih (pos + max consumed 1) m hmem
    · rw [if_neg hp]
      simp

theorem findAll_matched_sub (r : RE) (s : List Char) :
    ∀ m ∈ findAll r s, m.matched <:+: s :=
  scanAux_matched_sub r s (s.length + 1) 0

theorem stripList_sub (xs : List Char) : stripList xs <:+: xs := by
  unfold stripList
  have h1 : xs.dropWhile pyWhitespace <:+ xs := xs.dropWhile_suffix pyWhitespace
  have h2 : (xs.dropWhile pyWhitespace).reverse.dropWhile pyWhitespace <:+
      (xs.dropWhile pyWhitespace).reverse :=
    List.dropWhile_suffix pyWhitespace
  have h3 : ((xs.dropWhile pyWhitespace).reverse.dropWhile
      pyWhitespace).reverse <+: (xs.dropWhile pyWhitespace) := by
    have := List.reverse_prefix.mpr h2
    rwa [List.reverse_reverse] at this
  exact h3.isInfix.trans h1.isInfix

/-- The `full_citation` field of a record. -/
def Citation.fullCitation : Citation → String
  | .case f _ _ _ _ _ _ => f
  | .statute f _ _ _ => f

theorem buildCitation_full {ng : Nat} {m : RMatch} {c : Citation}
    (h : buildCitation ng m = .ok c) :
    c.fullCitation = pyStrip (String.mk m.matched) := by
  unfold buildCitation at h
  by_cases hb : (strContains (String.mk m.matched) "U.S.C." ||
      strContains (String.mk m.matched) "C.F.R." ||
      strContains (String.mk m.matched) "Code") = true
  · rw [if_pos hb] at h
    obtain ⟨g1, _, h⟩ := except_bind_ok h
    obtain ⟨t1, _, h⟩ := except_bind_ok h
    obtain ⟨g2, _, h⟩ := except_bind_ok h
    obtain ⟨t2, _, h⟩ := except_bind_ok h
    obtain ⟨g3, _, h⟩ := except_bind_ok h
    obtain ⟨t3, _, h⟩ := except_bind_ok h
    simp only [pure, Except.pure, Except.ok.injEq] at h
    rw [← h]
    rfl
  · rw [if_neg hb] at h
    obtain ⟨g1, _, h⟩ := except_bind_ok h
    obtain ⟨p1, _, h⟩ := except_bind_ok h
    obtain ⟨g2, _, h⟩ := except_bind_ok h
    obtain ⟨p2, _, h⟩ := except_bind_ok h
    obtain ⟨g3, _, h⟩ := except_bind_ok h
    obtain ⟨vol, _, h⟩ := except_bind_ok h
    obtain ⟨g4, _, h⟩ := except_bind_ok h
    obtain ⟨rep, _, h⟩ := except_bind_ok h
    obtain ⟨g5, _, h⟩ := except_bind_ok h
    obtain ⟨pg, _, h⟩ := except_bind_ok h
    obtain ⟨g6, _, h⟩ := except_bind_ok h
    obtain ⟨g7, _, h⟩ := except_bind_ok h
    simp only [pure, Except.pure, Except.ok.injEq] at h
    rw [← h]
    rfl

theorem buildCitationList_mem {ng : Nat} {ms : List RMatch}
    {cs : List Citation} (h : buildCitationList ng ms = .ok cs) :
    ∀ c ∈ cs, ∃ m ∈ ms, buildCitation ng m = .ok c := by
  induction ms generalizing cs with
  | nil =>
    unfold buildCitationList at h
    cases h
    simp
  | cons m mt ih =>
    unfold buildCitationList at h
    cases hb : buildCitation ng m with
    | ok c0 =>
      rw [hb] at h
      obtain ⟨rest, hrest, h⟩ := except_bind_ok h
      simp only [pure, Except.pure, Except.ok.injEq] at h
      subst h
      intro c hc
      rcases List.mem_cons.mp hc with hc | hc
      · exact ⟨m, List.mem_cons_self _ _, by rw [hb, hc]⟩
      · obtain ⟨m', hm', hbc⟩ := ih hrest c hc
        exact ⟨m', List.mem_cons_of_mem _ hm', hbc⟩
    | error e =>
      rw [hb] at h
      intro c hc
      cases e with
      | valueError =>
        obtain ⟨m', hm', hbc⟩ := ih h c hc
        exact ⟨m', List.mem_cons_of_mem _ hm', hbc⟩
      | attributeError =>
        obtain ⟨m', hm', hbc⟩ := ih h c hc
        exact ⟨m', List.mem_cons_of_mem _ hm', hbc⟩
      | typeError => simp at h
      | indexError => simp at h
      | keyError => simp at h

theorem extract_parts {t : String} {cl : List Citation}
    (h : extractLegalCitations t = .ok cl) :
    ∃ cs1 cs2 cs3,
      buildCitationList 7 (findAll patFederal t.data) = .ok cs1 ∧
      buildCitationList 7 (findAll patState t.data) = .ok cs2 ∧
      buildCitationList 3 (findAll patStatute t.data) = .ok cs3 ∧
      cl = ((cs1 ++ cs2 ++ cs3).take 50) := by
  unfold extractLegalCitations at h
  obtain ⟨cs1, h1, h⟩ := except_bind_ok h
  obtain ⟨cs2, h2, h⟩ := except_bind_ok h
  obtain ⟨cs3, h3, h⟩ := except_bind_ok h
  simp only [pure, Except.pure, Except.ok.injEq] at h
  exact ⟨cs1, cs2, cs3, h1, h2, h3, h.symm⟩

/-- Every extracted record's `full_citation` is, lower-cased, a substring of
the lower-cased motion text: records are built from stripped match spans of
the text itself. -/
theorem extract_full_sub {t : String} {cl : List Citation}
    (h : extractLegalCitations t = .ok cl) :
    ∀ c ∈ cl, (pyLower c.fullCitation).data <:+: (pyLower t).data := by
  obtain ⟨cs1, cs2, cs3, h1, h2, h3, hcl⟩ := extract_parts h
  intro c hc
  rw [hcl] at hc
  have hc' := List.mem_of_mem_take hc
  have hmm : ∃ m : RMatch, m.matched <:+: t.data ∧
      c.fullCitation = pyStrip (String.mk m.matched) := by
    rcases List.mem_append.mp hc' with hc12 | hc3
    · rcases List.mem_append.mp hc12 with hc1 | hc2
      · obtain ⟨m, hm, hb⟩ := buildCitationList_mem h1 c hc1
        exact ⟨m, findAll_matched_sub _ _ m hm, buildCitation_full hb⟩
      · obtain ⟨m, hm, hb⟩ := buildCitationList_mem h2 c hc2
        exact ⟨m, findAll_matched_sub _ _ m hm, buildCitation_full hb⟩
    · obtain ⟨m, hm, hb⟩ := buildCitationList_mem h3 c hc3
      exact ⟨m, findAll_matched_sub _ _ m hm, buildCitation_full hb⟩
  obtain ⟨m, hinf, hfull⟩ := hmm
  rw [hfull]
  show ((stripList m.matched).map Char.toLower) <:+: (t.data.map Char.toLower)
  exact ((stripList_sub m.matched).trans hinf).map _

/-! ## Concrete sample data used by witnesses and counterexamples -/

/-- A response dict whose first two argument entries lack `argument_id`
(the spec scenario for identifier assignment). -/
def sampleDictIn : JDict :=
  [(kAllArguments, .jarr [.jobj [], .jobj []])]

/-- The fully backfilled argument entry `arg_{n:03d}`. -/
def sampleArgOut (n : Nat) : JVal :=
  .jobj [(.kstr "argument_id", .jstr (argIdFormat n)),
    (.kstr "confidence_score", .jnum 0.8),
    (.kstr "priority_level", .jnum 3),
    (.kstr "subcategories", .jarr []),
    (.kstr "weaknesses", .jarr []),
    (.kstr "cited_statutes", .jarr [])]

/-- The normalizer's output on `sampleDictIn`. -/
def sampleDictOut : JDict :=
  [(kAllArguments, .jarr [sampleArgOut 1, sampleArgOut 2]),
   (kArgsByCategory, .jobj [(.kstr "other",
      .jarr [sampleArgOut 1, sampleArgOut 2])]),
   (kTotalFound, .jnum 2),
   (kCategoriesUsed, .jarr [.jstr "other"]),
   (kConfidence, .jnum 0.85)]

/-- A malformed response dict: an argument entry that is a number, on which
the normalizer's `'argument_id' not in arg` raises `TypeError`. -/
def malformedDict : JDict :=
  [(kAllArguments, .jarr [.jnum 42])]

/-- The motion text of the whitespace counterexample: the case citation is
written without a space after `v.`, so the extractor's reconstructed name
`Smith v. Jones` is in the membership set but not a substring of the text. -/
def smithText : String := "Smith v.Jones, 123 F.3d 456 (9th Cir. 2020)"

/-- What `_extract_legal_citations` returns on `smithText`. -/
def smithExtracted : List Citation :=
  [.case "Smith v.Jones, 123 F.3d 456 (9th Cir. 2020)" "Smith v. Jones"
    "123" "F.3d" "456" "9th Cir. " 2020]

/-- A model-cited case citation naming `Smith v. Jones`. -/
def smithCitation : LegalCitation :=
  { full_citation := "Smith v. Jones, 123 F.3d 456 (9th Cir. 2020)"
    case_name := "Smith v. Jones"
    legal_principle := "p"
    application := "a"
    jurisdiction := "9th Cir."
    year := 2020
    is_binding := true
    citation_strength := .strong }

/-- One argument citing `Smith v. Jones`. -/
def smithArgument : ExtractedArgument :=
  { argument_id := "arg_001"
    category := "causation_disputes"
    argument_summary := "Causation is disputed."
    legal_basis := "b"
    cited_cases := [smithCitation]
    cited_statutes := []
    counterarguments := []
    weaknesses := []
    subcategories := []
    strength_assessment := .moderate
    confidence_score := 0.8
    priority_level := 3 }

/-- A validated analysis result carrying `smithArgument`. -/
def smithResult : ComprehensiveMotionAnalysis :=
  { all_arguments := [smithArgument]
    arguments_by_category := [("causation_disputes", [smithArgument])]
    categories_used := ["causation_disputes"]
    custom_categories_created := []
    notable_omissions := []
    research_priorities := []
    total_arguments_found := 1
    confidence_in_analysis := 0.85 }

/-- An analysis result with no arguments and no grouping. -/
def emptyResult : ComprehensiveMotionAnalysis :=
  { all_arguments := []
    arguments_by_category := []
    categories_used := []
    custom_categories_created := []
    notable_omissions := []
    research_priorities := []
    total_arguments_found := 0
    confidence_in_analysis := 0.85 }

/-- An analysis result that arrives at the post-processor already carrying
six notable omissions from the model. -/
def sixOmissionsResult : ComprehensiveMotionAnalysis :=
  { emptyResult with
    notable_omissions := ["o1", "o2", "o3", "o4", "o5", "o6"] }

/-! ## The claims -/

/-- C1 (amended): for every Analysis Result emerging from the Post-Processor
run on the extractor's own output, every retained cited case has a name that,
case-insensitively, is a substring of the motion text or a member of the
extractor's case-name set; and every retained statute reference is,
case-insensitively, a substring of the motion text (set membership implies
text membership for statutes, since extracted statute citations are spans of
the text; the analogous strengthening fails for case names, as the
counterexample shows). -/
theorem c1_citation_reconciliation (t : String) (cl : List Citation)
    (r : ComprehensiveMotionAnalysis)
    (hx : extractLegalCitations t = .ok cl) :
    ∀ a ∈ (postProcessComprehensiveAnalysis r t cl).all_arguments,
      (∀ c ∈ a.cited_cases,
        strContains (pyLower t) (pyLower c.case_name) = true ∨
          (validCaseCitations cl).contains (pyLower c.case_name) = true) ∧
      (∀ s ∈ a.cited_statutes,
        strContains (pyLower t) (pyLower s) = true) := by
  intro a ha
  have ha' : ∃ a0 ∈ r.all_arguments,
      cleanArgument t (validCaseCitations cl) (validStatuteCitations cl) a0 =
        a := List.mem_map.mp ha
  obtain ⟨a0, _, ha0⟩ := ha'
  subst ha0
  constructor
  · intro c hc
    have := (List.mem_filter.mp hc).2
    rcases Bool.or_eq_true _ _ |>.mp this with h | h
    · exact .inl h
    · exact .inr h
  · intro s hs
    have := (List.mem_filter.mp hs).2
    rcases Bool.or_eq_true _ _ |>.mp this with h | h
    · exact h
    · rw [List.any_eq_true] at h
      obtain ⟨cite, hcmem, hsub⟩ := h
      have hcit : ∃ c ∈ cl, (match c with
          | .statute f _ _ _ => some (pyLower f)
          | _ => none) = some cite := List.mem_filterMap.mp hcmem
      obtain ⟨c, hcin, hmatch⟩ := hcit
      have hfull : cite = pyLower c.fullCitation := by
        cases c with
        | case f n v rp p co y => simp at hmatch
        | statute f ti co se =>
          simp only [Option.some.injEq] at hmatch
          rw [← hmatch]
          rfl
      have hinf := extract_full_sub hx c hcin
      rw [← hfull] at hinf
      exact strContains_of_sub
        ((sub_of_strContains hsub).trans hinf)

/-- Witness for C1 at the concrete whitespace scenario: the retained
`Smith v. Jones` citation satisfies the reconciliation disjunction. -/
theorem c1_witness :
    strContains (pyLower smithText) (pyLower smithCitation.case_name) = true ∨
      (validCaseCitations smithExtracted).contains
        (pyLower smithCitation.case_name) = true :=
  ((c1_citation_reconciliation smithText smithExtracted smithResult rfl)
    (cleanArgument smithText (validCaseCitations smithExtracted)
      (validStatuteCitations smithExtracted) smithArgument)
    (List.mem_singleton_self _)).1 smithCitation (List.mem_singleton_self _)

/-- Counterexample for C1 as stated: on `smithText` the extractor produces
the case-name `Smith v. Jones`, the post-processor therefore retains the
citation, yet the name is not a case-insensitive substring of the motion
text. -/
theorem c1_counterexample :
    extractLegalCitations smithText = .ok smithExtracted ∧
    ¬ (∀ a ∈ (postProcessComprehensiveAnalysis smithResult smithText
        smithExtracted).all_arguments, ∀ c ∈ a.cited_cases,
        strContains (pyLower smithText) (pyLower c.case_name) = true) := by
  refine ⟨rfl, fun hall => ?_⟩
  have hmem : cleanArgument smithText (validCaseCitations smithExtracted)
      (validStatuteCitations smithExtracted) smithArgument ∈
      (postProcessComprehensiveAnalysis smithResult smithText
        smithExtracted).all_arguments := List.mem_singleton_self _
  have hcit : smithCitation ∈ (cleanArgument smithText
      (validCaseCitations smithExtracted)
      (validStatuteCitations smithExtracted) smithArgument).cited_cases :=
    List.mem_singleton_self _
  exact absurd (hall _ hmem smithCitation hcit) (by decide)

/-- C2 (amended): the post-processor performs no category-coverage backfill.
It synthesizes no placeholder arguments — the argument list keeps its length —
and the final category set is exactly the keys of the incoming
category-indexed grouping, so a required category (causation, liability,
procedural defenses) is present in the final category set only when it was
already present among the grouping keys. -/
theorem c2_no_category_backfill (r : ComprehensiveMotionAnalysis)
    (t : String) (c : List Citation) :
    (postProcessComprehensiveAnalysis r t c).all_arguments.length =
      r.all_arguments.length ∧
    (postProcessComprehensiveAnalysis r t c).categories_used =
      r.arguments_by_category.map Prod.fst := by
  refine ⟨?_, rfl⟩
  simp [postProcessComprehensiveAnalysis]

/-- Counterexample for C2 as stated: a validated result with no arguments and
an empty grouping leaves the post-processor with no arguments, no synthesized
placeholders, and a final category set that contains none of the required
categories. -/
theorem c2_counterexample :
    (postProcessComprehensiveAnalysis emptyResult "" []).all_arguments = [] ∧
    (postProcessComprehensiveAnalysis emptyResult "" []).categories_used = [] ∧
    "causation_disputes" ∉
      (postProcessComprehensiveAnalysis emptyResult "" []).categories_used ∧
    "liability_issues" ∉
      (postProcessComprehensiveAnalysis emptyResult "" []).categories_used ∧
    "procedural_defenses" ∉
      (postProcessComprehensiveAnalysis emptyResult "" []).categories_used := by
  refine ⟨rfl, rfl, ?_, ?_, ?_⟩ <;>
    · rw [show (postProcessComprehensiveAnalysis emptyResult ""
        []).categories_used = [] from rfl]
      simp

/-- C3: the total-arguments-found counter is recomputed from the flat list —
after normalization the stored total equals the length of the stored
`all_arguments` list, and after post-processing the `total_arguments_found`
field equals the length of the final `all_arguments` list. -/
theorem c3_count_consistency :
    (∀ (d d' : JDict) (xs : List JVal),
      ensureComprehensiveStructure d = .ok d' →
      jLookup d' kAllArguments = some (.jarr xs) →
      jLookup d' kTotalFound = some (.jnum xs.length)) ∧
    (∀ (r : ComprehensiveMotionAnalysis) (t : String) (c : List Citation),
      (postProcessComprehensiveAnalysis r t c).total_arguments_found =
        (postProcessComprehensiveAnalysis r t c).all_arguments.length) := by
  constructor
  · intro d d' xs h hx
    exact ensure_total_eq_length h hx
  · intro r t c
    rfl

/-- Witness for C3 at the concrete two-argument input. -/
theorem c3_witness :
    jLookup sampleDictOut kTotalFound = some (.jnum 2) :=
  c3_count_consistency.1 sampleDictIn sampleDictOut
    [sampleArgOut 1, sampleArgOut 2] rfl rfl

/-- C4: `motion_analyzer.py` imports `ComprehensiveMotionAnalysis`,
`ExtractedArgument` and `ArgumentGroup` from `app.models.schemas`, but the
schemas module defines none of those names, and the `Argument` and
`ResearchPriority` models it does define lack every field the pipeline
backfills and reads (`argument_id`, `confidence_score`, `priority_level`,
`subcategories`, `weaknesses`, `cited_statutes` on arguments;
`related_arguments` on research priorities).  The import raises at module
load, so `analyze_motion` can never construct a validated result. -/
theorem c4_missing_model_names :
    (∀ n ∈ ["ComprehensiveMotionAnalysis", "ExtractedArgument",
        "ArgumentGroup"],
      n ∈ analyzerImportedNames ∧ n ∉ schemasDefinedNames) ∧
    (∀ f ∈ analyzerExtraArgumentFields, f ∉ argumentModelFields) ∧
    "related_arguments" ∉ researchPriorityModelFields := by decide

/-- C5 (amended): the Normalizer never raises on inputs whose
`all_arguments`, when present, is an array of JSON objects with
string-or-absent `category` fields and whose `arguments_by_category`, when
present, is an object; on other malformed entries it can raise (see the
counterexample), so rejection is not entirely deferred to the Structural
Validator. -/
theorem c5_normalization_total_on_benign (d : JDict)
    (h : benignNormalizerInput d = true) :
    ∃ d', ensureComprehensiveStructure d = .ok d' :=
  ensure_benign_total h

/-- Witness for C5 at the concrete two-argument input. -/
theorem c5_witness :
    benignNormalizerInput sampleDictIn = true ∧
    ∃ d', ensureComprehensiveStructure sampleDictIn = .ok d' :=
  ⟨rfl, c5_normalization_total_on_benign sampleDictIn rfl⟩

/-- Counterexample for C5 as stated: a response whose `all_arguments`
contains the number `42` makes `'argument_id' not in arg` raise `TypeError`,
so normalization itself raises rather than coercing the malformed entry. -/
theorem c5_counterexample :
    ensureComprehensiveStructure malformedDict = .error .typeError := rfl

/-- C6: every argument entry of the received array that is a dict lacking an
identifier is assigned `arg_{index:03d}` from its 1-based position, by the
identifier statement alone and independently of the other backfill
statements. -/
theorem c6_argument_id_assignment (d d' : JDict) (xs : List JVal) (i : Nat)
    (kvs : JDict) (h : ensureComprehensiveStructure d = .ok d')
    (hx : jLookup d kAllArguments = some (.jarr xs))
    (hi : xs.get? i = some (.jobj kvs))
    (hid : jHasKey kvs (.kstr "argument_id") = false) :
    ∃ ys kvs', jLookup d' kAllArguments = some (.jarr ys) ∧
      ys.get? i = some (.jobj kvs') ∧
      jLookup kvs' (.kstr "argument_id") =
        some (.jstr (argIdFormat (i + 1))) := by
  obtain ⟨ys, hys, hd'⟩ := ensure_allArguments h hx
  obtain ⟨y, hy, hnorm⟩ := mapWithIdx_get hys i _ hi
  rw [Nat.zero_add] at hnorm
  obtain ⟨kvs', hkvs', hlook⟩ := normArg_sets_id i kvs hid
  rw [hnorm] at hkvs'
  have hyv : y = .jobj kvs' := by
    cases hkvs'
    rfl
  refine ⟨ys, kvs', hd', ?_, hlook⟩
  rw [hy, hyv]

/-- Witness for C6: the spec scenario — a response whose first two entries
lack `argument_id` gets `arg_001` and `arg_002`, in input order. -/
theorem c6_witness :
    (∃ ys kvs', jLookup sampleDictOut kAllArguments = some (.jarr ys) ∧
      ys.get? 0 = some (.jobj kvs') ∧
      jLookup kvs' (.kstr "argument_id") =
        some (.jstr (argIdFormat 1))) ∧
    (∃ ys kvs', jLookup sampleDictOut kAllArguments = some (.jarr ys) ∧
      ys.get? 1 = some (.jobj kvs') ∧
      jLookup kvs' (.kstr "argument_id") =
        some (.jstr (argIdFormat 2))) :=
  ⟨c6_argument_id_assignment sampleDictIn sampleDictOut
      [.jobj [], .jobj []] 0 [] rfl rfl rfl rfl,
    c6_argument_id_assignment sampleDictIn sampleDictOut
      [.jobj [], .jobj []] 1 [] rfl rfl rfl rfl⟩

/-- C7: the Normalizer is idempotent — whenever it runs to completion,
running it again on its own output returns that output unchanged. -/
theorem c7_normalizer_idempotent (d d' : JDict)
    (h : ensureComprehensiveStructure d = .ok d') :
    ensureComprehensiveStructure d' = .ok d' :=
  ensure_idempotent h

/-- Witness for C7 at the concrete two-argument input. -/
theorem c7_witness :
    ensureComprehensiveStructure sampleDictOut = .ok sampleDictOut :=
  c7_normalizer_idempotent sampleDictIn sampleDictOut rfl

/-- C8 (amended): omission detection appends at most 5 potential-omission
notes to the notable-omissions list; the final list is the incoming list plus
that bounded suffix, so it is bounded by the incoming length plus 5 — but not
by 5 absolutely (see the counterexample). -/
theorem c8_omissions_append_bound (r : ComprehensiveMotionAnalysis)
    (t : String) (c : List Citation) :
    ∃ missed : List String, missed.length ≤ 5 ∧
      (postProcessComprehensiveAnalysis r t c).notable_omissions =
        r.notable_omissions ++ missed := by
  refine ⟨_, ?_, rfl⟩
  exact List.length_take_le _ _

/-- Counterexample for C8 as stated: a validated result already carrying six
notable omissions leaves the post-processor with more than 5 entries. -/
theorem c8_counterexample :
    5 < (postProcessComprehensiveAnalysis sixOmissionsResult ""
      []).notable_omissions.length := by decide

/-- C9: the Citation Extractor is a pure function of the motion text — two
runs on identical text return identical results — and the match sequence of
each of the three patterns is ordered by strictly increasing document
position, the patterns being applied in their fixed priority order inside
`extractLegalCitations`. -/
theorem c9_extraction_determinism (t : String) :
    extractLegalCitations t = extractLegalCitations t ∧
    List.Chain' (· < ·) ((findAll patFederal t.data).map RMatch.start) ∧
    List.Chain' (· < ·) ((findAll patState t.data).map RMatch.start) ∧
    List.Chain' (· < ·) ((findAll patStatute t.data).map RMatch.start) :=
  ⟨rfl, (scanAux_bounds patFederal t.data (t.data.length + 1) 0).2,
    (scanAux_bounds patState t.data (t.data.length + 1) 0).2,
    (scanAux_bounds patStatute t.data (t.data.length + 1) 0).2⟩

set_option maxRecDepth 40000 in
/-- C10 (amended): the Prompt Builder returns a fixed constant string, but
that system instruction does not enumerate the recognized enumerants
verbatim: none of the ten `ArgumentCategory` values occurs in it, and the
strength levels `moderate`, `very_weak` and `very_strong` do not occur
either. -/
theorem c10_prompt_lacks_enum_values :
    (∀ v ∈ argumentCategoryValues, strContains getSystemPrompt v = false) ∧
    (∀ v ∈ ["moderate", "very_weak", "very_strong"],
      strContains getSystemPrompt v = false) := by decide

set_option maxRecDepth 40000 in
/-- Counterexample for C10 as stated: the category value `negligence_duty`
does not occur verbatim in the system instruction. -/
theorem c10_counterexample :
    ¬ (∀ v ∈ argumentCategoryValues ++ strengthLevelValues,
      strContains getSystemPrompt v = true) := by
  intro h
  exact absurd (h "negligence_duty" (by decide)) (by decide)
